import Mathlib

/-!
Shallow embedding of the bounded, cursor-navigable event-history engine of
`src/lib/event_history.rs` (struct `EventHistory` and its operations), together
with spec-level descriptions of the navigation scan and proofs relating the two.

The Rust `Vec<EventStatus<T>>` ring buffer becomes a `List (EventStatus T)`,
`HashMap<T::ID, BTreeSet<usize>>` becomes an association list
`List (ID × List ℕ)`, and `HashSet<T::ID>` becomes a duplicate-free `List ID`.
The `find_next` loop is embedded with an explicit fuel argument of
`max_size` steps, which is enough for every state whose indices are in range
(the loop walks the ring of `max_size` slots at most once before hitting its
stop index).  Machine integers (`usize`) are modelled as `ℕ`; the only
subtractions in the source are on values that are positive at the subtraction
site, or happen in the write-only status counters.
-/

set_option maxHeartbeats 1000000

universe u v

/-- Status of one slot of the ring buffer (`EventStatus` in `event_history.rs`). -/
inductive EventStatus (T : Type u) where
  | active (t : T)
  | inactive (t : T)
  | deleted
deriving DecidableEq

/-- Rust `EventStatus::get_event`: payload of a non-deleted slot. -/
def EventStatus.get_event {T : Type u} : EventStatus T → Option T
  | .active t => some t
  | .inactive t => some t
  | .deleted => none

/-- Rust `traverse::next`: successor index on the ring of `max_size` slots. -/
def traverse.next (current max_size : ℕ) : ℕ :=
  if current = max_size - 1 then 0 else current + 1

/-- Rust `traverse::prev`: predecessor index on the ring of `max_size` slots. -/
def traverse.prev (current max_size : ℕ) : ℕ :=
  if current = 0 then max_size - 1 else current - 1

/-- The write-only status counters (`EventStatusCount`). -/
structure EventStatusCount where
  active : ℕ
  inactive : ℕ
  deleted : ℕ
deriving DecidableEq

/-- Insert an index into a `BTreeSet<usize>` modelled as a duplicate-free list. -/
def setInsert (idx : ℕ) (s : List ℕ) : List ℕ :=
  if idx ∈ s then s else idx :: s

/-- Insert an identifier into a `HashSet<T::ID>` modelled as a duplicate-free list. -/
def idSetInsert {ID : Type v} [DecidableEq ID] (key : ID) (s : List ID) : List ID :=
  if key ∈ s then s else key :: s

/-- Rust `HashMap::get` on the association-list model of `event_idx_map`. -/
def mapFind? {ID : Type v} [DecidableEq ID] : List (ID × List ℕ) → ID → Option (List ℕ)
  | [], _ => none
  | (k, v) :: rest, key => if k = key then some v else mapFind? rest key

/-- Index set of an identifier, empty when the identifier is absent. -/
def mapIdxs {ID : Type v} [DecidableEq ID] (m : List (ID × List ℕ)) (key : ID) : List ℕ :=
  (mapFind? m key).getD []

/-- Rust `map.entry(key).or_default().insert(idx)`. -/
def mapInsertIdx {ID : Type v} [DecidableEq ID] : List (ID × List ℕ) → ID → ℕ → List (ID × List ℕ)
  | [], key, idx => [(key, [idx])]
  | (k, v) :: rest, key, idx =>
    if k = key then (k, setInsert idx v) :: rest
    else (k, v) :: mapInsertIdx rest key idx

/-- Rust `idxs.remove(&idx); if idxs.is_empty() { map.remove(key) }` on one key. -/
def mapRemoveIdx {ID : Type v} [DecidableEq ID] : List (ID × List ℕ) → ID → ℕ → List (ID × List ℕ)
  | [], _, _ => []
  | (k, v) :: rest, key, idx =>
    if k = key then
      (if v.erase idx = [] then rest else (k, v.erase idx) :: rest)
    else (k, v) :: mapRemoveIdx rest key idx

/-- Rust `HashMap::remove(key)`: returns the removed index set (if any) and the rest. -/
def mapRemoveKey {ID : Type v} [DecidableEq ID] :
    List (ID × List ℕ) → ID → Option (List ℕ) × List (ID × List ℕ)
  | [], _ => (none, [])
  | (k, v) :: rest, key =>
    if k = key then (some v, rest)
    else
      let r := mapRemoveKey rest key
      (r.1, (k, v) :: r.2)

/-- The state of `EventHistory<T>`; field names follow the Rust struct. -/
structure EventHistory (T : Type u) (ID : Type v) where
  max_size : ℕ
  cursor : ℕ
  head : ℕ
  history_start : ℕ
  static_history : Bool
  events : List (EventStatus T)
  event_idx_map : List (ID × List ℕ)
  ignored_events : List ID
  event_status_count : EventStatusCount
deriving DecidableEq

variable {T : Type u} {ID : Type v} [DecidableEq ID]

/-- Rust `EventHistory::new(max_size)`. -/
def EventHistory.new (max_size : ℕ) : EventHistory T ID :=
  ⟨max_size, 0, 0, 0, true, [], [], [], ⟨0, 0, 0⟩⟩

/-- Rust `self.next_idx(current)`. -/
def EventHistory.next_idx (h : EventHistory T ID) (current : ℕ) : ℕ :=
  traverse.next current h.max_size

/-- Rust `self.prev_idx(current)`. -/
def EventHistory.prev_idx (h : EventHistory T ID) (current : ℕ) : ℕ :=
  traverse.prev current h.max_size

variable (getId : T → ID)

/-- Rust `self.get_idx_id(idx)`: identifier of the (non-deleted) entry at `idx`. -/
def EventHistory.get_idx_id (h : EventHistory T ID) (idx : ℕ) : Option ID :=
  (h.events[idx]?.bind EventStatus.get_event).map getId

/-- Rust `self.in_valid_range(idx)`. -/
def EventHistory.in_valid_range (h : EventHistory T ID) (idx : ℕ) : Bool :=
  if h.events.isEmpty then false
  else if h.history_start ≤ h.head then
    decide (h.history_start ≤ idx ∧ idx ≤ h.head)
  else
    decide (h.history_start ≤ idx ∨ idx ≤ h.head)

/-- Loop body of `find_next`, with an explicit fuel bound on the iteration count. -/
def findNextGo (h : EventHistory T ID) (stop_idx : ℕ) (next_fn : ℕ → ℕ → ℕ)
    (initial_id : Option ID) : ℕ → ℕ → Option ℕ
  | 0, _ => none
  | fuel + 1, idx0 =>
    let idx := next_fn idx0 h.max_size
    if h.in_valid_range idx = false ∨ idx = stop_idx then none
    else
      match h.events[idx]? with
      | none => none
      | some current_event =>
        match current_event, initial_id with
        | .active t, some i0 =>
          if getId t = i0 then findNextGo h stop_idx next_fn initial_id fuel idx
          else some idx
        | .active _, none => some idx
        | .inactive _, _ => findNextGo h stop_idx next_fn initial_id fuel idx
        | .deleted, _ => findNextGo h stop_idx next_fn initial_id fuel idx

/-- Rust `self.find_next(current, stop_idx, next_fn)`. -/
def EventHistory.find_next (h : EventHistory T ID) (current stop_idx : ℕ)
    (next_fn : ℕ → ℕ → ℕ) : Option ℕ :=
  findNextGo getId h stop_idx next_fn (h.get_idx_id getId current) h.max_size current

/-- Rust `self.next_active_idx(current)`. -/
def EventHistory.next_active_idx (h : EventHistory T ID) (current : ℕ) : Option ℕ :=
  if current = h.head then none
  else h.find_next getId current (h.next_idx h.head) traverse.next

/-- Rust `self.prev_active_idx(current)`. -/
def EventHistory.prev_active_idx (h : EventHistory T ID) (current : ℕ) : Option ℕ :=
  if current = h.history_start then none
  else h.find_next getId current (h.prev_idx h.history_start) traverse.prev

/-- Rust `self.forward()`: returns the mutated state and the navigated-to item. -/
def EventHistory.forward (h : EventHistory T ID) : EventHistory T ID × Option T :=
  match h.next_active_idx getId h.cursor with
  | none => (h, none)
  | some new_cursor_position =>
    let h1 := { h with cursor := new_cursor_position }
    match h1.events[new_cursor_position]?.bind EventStatus.get_event with
    | none => (h1, none)
    | some current_event =>
      ({ h1 with ignored_events := idSetInsert (getId current_event) h1.ignored_events },
       some current_event)

/-- Rust `self.backward()`: returns the mutated state and the navigated-to item. -/
def EventHistory.backward (h : EventHistory T ID) : EventHistory T ID × Option T :=
  match h.prev_active_idx getId h.cursor with
  | none => (h, none)
  | some new_cursor_position =>
    let h1 := { h with cursor := new_cursor_position }
    match h1.events[new_cursor_position]?.bind EventStatus.get_event with
    | none => (h1, none)
    | some current_event =>
      ({ h1 with ignored_events := idSetInsert (getId current_event) h1.ignored_events },
       some current_event)

/-- The marking loop of `remove`: tombstone each index and update the counters.
The source indexes `self.events[*idx]` directly; an out-of-range index would
panic there, which never happens on reachable states (see the map soundness
invariant), so the model leaves such an index unwritten. -/
def markDeletedFold {T : Type u} :
    List ℕ → List (EventStatus T) × EventStatusCount → List (EventStatus T) × EventStatusCount
  | [], st => st
  | i :: rest, (evs, c) =>
    let c' : EventStatusCount :=
      match evs[i]? with
      | some (.active _) => { c with deleted := c.deleted + 1, active := c.active - 1 }
      | some (.inactive _) => { c with deleted := c.deleted + 1, inactive := c.inactive - 1 }
      | _ => c
    markDeletedFold rest (evs.set i .deleted, c')

/-- Rust `self.remove(id)`. -/
def EventHistory.remove (h : EventHistory T ID) (key : ID) : EventHistory T ID :=
  match mapRemoveKey h.event_idx_map key with
  | (none, _) => h
  | (some idxs, m') =>
    let st := markDeletedFold idxs (h.events, h.event_status_count)
    let h1 := { h with event_idx_map := m', events := st.1, event_status_count := st.2 }
    if h.cursor ∈ idxs then
      match h1.prev_active_idx getId h1.cursor with
      | some prev_active => { h1 with cursor := prev_active }
      | none => h1
    else h1

/-- The marking loop of `deactivate`: demote active entries.  The source
panics on a `Deleted` entry ("Tried to deactivate a deleted event") and on an
out-of-range index; both are unreachable (see `toggleHitsDeleted`), and the
model leaves such slots unchanged. -/
def deactivateFold {T : Type u} :
    List ℕ → List (EventStatus T) × EventStatusCount → List (EventStatus T) × EventStatusCount
  | [], st => st
  | i :: rest, (evs, c) =>
    match evs[i]? with
    | some (.active t) =>
      deactivateFold rest
        (evs.set i (.inactive t), { c with active := c.active - 1, inactive := c.inactive + 1 })
    | _ => deactivateFold rest (evs, c)

/-- Rust `self.deactivate(id)`. -/
def EventHistory.deactivate (h : EventHistory T ID) (key : ID) : EventHistory T ID :=
  match mapFind? h.event_idx_map key with
  | none => h
  | some idxs =>
    let st := deactivateFold idxs (h.events, h.event_status_count)
    let h1 := { h with events := st.1, event_status_count := st.2 }
    if h.cursor ∈ idxs then
      match h1.prev_active_idx getId h1.cursor with
      | some prev_active => { h1 with cursor := prev_active }
      | none => h1
    else h1

/-- The marking loop of `activate`: promote inactive entries.  The source
panics on a `Deleted` entry ("Tried to activate a deleted event") and on an
out-of-range index; both are unreachable (see `toggleHitsDeleted`). -/
def activateFold {T : Type u} :
    List ℕ → List (EventStatus T) × EventStatusCount → List (EventStatus T) × EventStatusCount
  | [], st => st
  | i :: rest, (evs, c) =>
    match evs[i]? with
    | some (.inactive t) =>
      activateFold rest
        (evs.set i (.active t), { c with active := c.active + 1, inactive := c.inactive - 1 })
    | _ => activateFold rest (evs, c)

/-- Rust `self.activate(id)`; unlike `remove`/`deactivate` it never moves the cursor. -/
def EventHistory.activate (h : EventHistory T ID) (key : ID) : EventHistory T ID :=
  match mapFind? h.event_idx_map key with
  | none => h
  | some idxs =>
    let st := activateFold idxs (h.events, h.event_status_count)
    { h with events := st.1, event_status_count := st.2 }

/-- Whether the `deactivate`/`activate` scans of `key` would reach a `Deleted`
entry or an out-of-range index — exactly the situations in which the source
panics with an illegal status transition. -/
def toggleHitsDeleted (h : EventHistory T ID) (key : ID) : Bool :=
  match mapFind? h.event_idx_map key with
  | none => false
  | some idxs =>
    idxs.any (fun i =>
      match h.events[i]? with
      | some (.active _) => false
      | some (.inactive _) => false
      | _ => true)

/-- Rust `self.add(item)`: returns the mutated state and the stored item (when stored). -/
def EventHistory.add (h : EventHistory T ID) (item : T) : EventHistory T ID × Option T :=
  if getId item ∈ h.ignored_events then
    ({ h with ignored_events := h.ignored_events.erase (getId item) }, none)
  else if (match h.events[h.cursor]? with
           | some (.active current) => decide (getId current = getId item)
           | _ => false) then
    (h, none)
  else
    let h1 :=
      if h.head ≠ h.cursor ∧ h.static_history = false then
        { h with history_start := h.next_idx h.head }
      else h
    let insert_idx := if h1.events.isEmpty then 0 else h1.next_idx h1.cursor
    let h2 := { h1 with cursor := insert_idx, head := insert_idx }
    let h3 :=
      if h2.events.length = h2.max_size ∧ h2.head = h2.history_start then
        { h2 with static_history := false,
                  history_start := h2.next_idx h2.history_start }
      else h2
    let prev_occupied_event_id_opt : Option ID :=
      (h3.events[insert_idx]?.bind EventStatus.get_event).map getId
    let m1 :=
      match prev_occupied_event_id_opt with
      | some pid => mapRemoveIdx h3.event_idx_map pid insert_idx
      | none => h3.event_idx_map
    let new_events :=
      if insert_idx = h3.events.length then h3.events ++ [EventStatus.active item]
      else h3.events.set insert_idx (.active item)
    let h4 := { h3 with
                events := new_events,
                event_idx_map := mapInsertIdx m1 (getId item) insert_idx,
                event_status_count :=
                  { h3.event_status_count with
                    active := h3.event_status_count.active + 1 } }
    (h4, new_events[insert_idx]?.bind EventStatus.get_event)

/-- One call on the shared history (the four event-feed mutations and the two
navigation requests). -/
inductive Op (T : Type u) (ID : Type v) where
  | add (item : T)
  | remove (key : ID)
  | deactivate (key : ID)
  | activate (key : ID)
  | forward
  | backward

/-- Apply one call, discarding the returned item. -/
def applyOp (h : EventHistory T ID) : Op T ID → EventHistory T ID
  | .add item => (h.add getId item).1
  | .remove key => h.remove getId key
  | .deactivate key => h.deactivate getId key
  | .activate key => h.activate key
  | .forward => (h.forward getId).1
  | .backward => (h.backward getId).1

/-- Run a sequence of calls from a freshly constructed history of capacity `c`. -/
def runOps (c : ℕ) (ops : List (Op T ID)) : EventHistory T ID :=
  ops.foldl (applyOp getId) (EventHistory.new c)

/-- The states the program can actually be in: a positive capacity and some
sequence of calls producing the state. -/
def Reachable (c : ℕ) (h : EventHistory T ID) : Prop :=
  0 < c ∧ ∃ ops : List (Op T ID), h = runOps getId c ops

/-- Indices strictly after `i` along the ring in `next_fn` order, up to and
including `target`; fuel-bounded (one full turn of the ring always suffices). -/
def ringPath (next_fn : ℕ → ℕ → ℕ) (max_size target : ℕ) : ℕ → ℕ → List ℕ
  | 0, _ => []
  | fuel + 1, i =>
    let j := next_fn i max_size
    if j = target then [j] else j :: ringPath next_fn max_size target fuel j

/-- Whether slot `i` is a navigation target: an Active entry whose identifier
differs from `initial_id` (when there is one). -/
def navTarget (h : EventHistory T ID) (initial_id : Option ID) (i : ℕ) : Bool :=
  match h.events[i]? with
  | some (.active t) => decide (initial_id ≠ some (getId t))
  | _ => false

/-- Modelled from the spec (§4.2): "let `cur_id` be the identifier at Cursor if
Active, else none". -/
def curIdSpec (h : EventHistory T ID) : Option ID :=
  match h.events[h.cursor]? with
  | some (.active t) => some (getId t)
  | _ => none

/-- Modelled from the spec (§4.2): the index found by scanning strictly toward
the tail (the head slot) for the first Active entry whose identifier differs
from `cur_id`, skipping Inactive, Deleted and same-identifier-Active entries. -/
def forwardSpecIdx (h : EventHistory T ID) : Option ℕ :=
  if h.cursor = h.head then none
  else
    (ringPath traverse.next h.max_size h.head h.max_size h.cursor).find?
      (navTarget getId h (curIdSpec getId h))

/-- Modelled from the spec (§4.2): the symmetric scan toward the head of
history (the `history_start` slot). -/
def backwardSpecIdx (h : EventHistory T ID) : Option ℕ :=
  if h.cursor = h.history_start then none
  else
    (ringPath traverse.prev h.max_size h.history_start h.max_size h.cursor).find?
      (navTarget getId h (curIdSpec getId h))

/-- Modelled from the spec (§4.2): on success move the Cursor, insert the found
identifier into the Ignore-Set and return the item; on failure return nothing
with the Cursor unchanged. -/
def forwardSpecFn (h : EventHistory T ID) : EventHistory T ID × Option T :=
  match forwardSpecIdx getId h with
  | none => (h, none)
  | some i =>
    match (h.events[i]?).bind EventStatus.get_event with
    | none => ({ h with cursor := i }, none)
    | some t =>
      ({ h with cursor := i, ignored_events := idSetInsert (getId t) h.ignored_events },
       some t)

/-- Modelled from the spec (§4.2): the symmetric backward contract. -/
def backwardSpecFn (h : EventHistory T ID) : EventHistory T ID × Option T :=
  match backwardSpecIdx getId h with
  | none => (h, none)
  | some i =>
    match (h.events[i]?).bind EventStatus.get_event with
    | none => ({ h with cursor := i }, none)
    | some t =>
      ({ h with cursor := i, ignored_events := idSetInsert (getId t) h.ignored_events },
       some t)

/-- Indices of the reachable region of the buffer, in ring order from
`history_start` to `head`. -/
def ringIndices (h : EventHistory T ID) : List ℕ :=
  if h.events.isEmpty then []
  else
    h.history_start ::
      (if h.history_start = h.head then []
       else ringPath traverse.next h.max_size h.head h.max_size h.history_start)

/-- Identifiers of the non-deleted reachable entries, oldest first. -/
def reachableIds (h : EventHistory T ID) : List ID :=
  (ringIndices h).filterMap (fun i =>
    ((h.events[i]?).bind EventStatus.get_event).map getId)

/-- Modelled from the spec (§4.4, rule (a)): the nearest earlier (toward
`history_start`) Active entry whose identifier differs from `key`. -/
def nearestEarlierActive (h : EventHistory T ID) (start : ℕ) (key : ID) : Option ℕ :=
  if start = h.history_start then none
  else
    (ringPath traverse.prev h.max_size h.history_start h.max_size start).find?
      (fun i => match h.events[i]? with
                | some (.active t) => decide (getId t ≠ key)
                | _ => false)

/-- Modelled from the spec (§4.4, rule (b)): the nearest later (toward the
head slot) Active entry whose identifier differs from `key`. -/
def nearestLaterActive (h : EventHistory T ID) (start : ℕ) (key : ID) : Option ℕ :=
  if start = h.head then none
  else
    (ringPath traverse.next h.max_size h.head h.max_size start).find?
      (fun i => match h.events[i]? with
                | some (.active t) => decide (getId t ≠ key)
                | _ => false)

/-- Modelled from the spec (§4.4, rule (c)): the most recent (nearest the head)
reachable Inactive entry. -/
def mostRecentInactive (h : EventHistory T ID) : Option ℕ :=
  ((ringIndices h).filter (fun i => match h.events[i]? with
                                    | some (.inactive _) => true
                                    | _ => false)).getLast?

/-- Modelled from the spec (§4.4): the claimed cursor-realignment priority
order — (a) nearest earlier differing Active; (b) nearest later differing
Active; (c) most recent Inactive; (d) index 0. -/
def specRealignCursor (h : EventHistory T ID) (start : ℕ) (key : ID) : ℕ :=
  match nearestEarlierActive getId h start key with
  | some p => p
  | none =>
    match nearestLaterActive getId h start key with
    | some p => p
    | none =>
      match mostRecentInactive h with
      | some p => p
      | none => 0

/-- The cursor sits on an Inactive entry only when no Active entry anywhere
carries the same identifier (so the code's scan, which keys on the cursor
identifier even for an Inactive cursor entry, agrees with the spec's). -/
def cursorInactiveSafe (h : EventHistory T ID) : Bool :=
  match h.events[h.cursor]? with
  | some (.inactive t) =>
    h.events.all (fun e => match e with
                           | .active u => decide (getId u ≠ getId t)
                           | _ => true)
  | _ => true

/-- Every index recorded in `event_idx_map` refers to an Active or Inactive
entry carrying exactly that identifier. -/
def mapSound (h : EventHistory T ID) : Bool :=
  h.event_idx_map.all (fun p => p.2.all (fun i =>
    match h.events[i]? with
    | some (.active t) => decide (getId t = p.1)
    | some (.inactive t) => decide (getId t = p.1)
    | _ => false))

/-- Every Active or Inactive entry is recorded in `event_idx_map` under its
identifier. -/
def mapComplete (h : EventHistory T ID) : Bool :=
  (List.range h.events.length).all (fun i =>
    match h.events[i]? with
    | some (.active t) => decide (i ∈ mapIdxs h.event_idx_map (getId t))
    | some (.inactive t) => decide (i ∈ mapIdxs h.event_idx_map (getId t))
    | _ => true)

/-- The state invariant maintained by every operation (established below for
all reachable states). -/
def HistInv (h : EventHistory T ID) : Prop :=
  0 < h.max_size ∧
  h.events.length ≤ h.max_size ∧
  h.history_start < h.max_size ∧
  (h.events.length = 0 →
    h.cursor = 0 ∧ h.head = 0 ∧ h.history_start = 0 ∧ h.static_history = true) ∧
  (0 < h.events.length →
    h.cursor < h.events.length ∧ h.head < h.events.length ∧
    h.in_valid_range h.cursor = true) ∧
  (h.static_history = true → h.history_start = 0) ∧
  (h.static_history = false → h.events.length = h.max_size) ∧
  cursorInactiveSafe getId h = true ∧
  mapSound getId h = true ∧
  mapComplete getId h = true ∧
  (h.event_idx_map.map Prod.fst).Nodup ∧
  (∀ p ∈ h.event_idx_map, p.2.Nodup) ∧
  h.ignored_events.Nodup

/-- The identity used as `get_id` when the engine is instantiated at `ℕ`
items (as the repository's own tests do with `i16`). -/
def natGetId : ℕ → ℕ := fun n => n

/-- Number of `traverse.next` steps from `a` to `b` on the ring of
`max_size` slots. -/
def ringDist (max_size a b : ℕ) : ℕ :=
  if a ≤ b then b - a else b + max_size - a

lemma traverse.next_lt {a max_size : ℕ} (hmax : 0 < max_size) (ha : a < max_size) :
    traverse.next a max_size < max_size := by
  unfold traverse.next; split <;> omega

lemma traverse.prev_lt {a max_size : ℕ} (hmax : 0 < max_size) (ha : a < max_size) :
    traverse.prev a max_size < max_size := by
  unfold traverse.prev; split <;> omega

lemma traverse.next_inj {a b max_size : ℕ} (ha : a < max_size) (hb : b < max_size)
    (h : traverse.next a max_size = traverse.next b max_size) : a = b := by
  unfold traverse.next at h; split at h <;> split at h <;> omega

lemma traverse.prev_inj {a b max_size : ℕ} (ha : a < max_size) (hb : b < max_size)
    (h : traverse.prev a max_size = traverse.prev b max_size) : a = b := by
  unfold traverse.prev at h; split at h <;> split at h <;> omega

lemma findNextGo_some {h : EventHistory T ID} {stop_idx : ℕ} {next_fn : ℕ → ℕ → ℕ}
    {initial_id : Option ID} :
    ∀ {fuel idx j : ℕ},
      findNextGo getId h stop_idx next_fn initial_id fuel idx = some j →
      h.in_valid_range j = true ∧ j ≠ stop_idx ∧
        ∃ t, h.events[j]? = some (.active t) ∧ initial_id ≠ some (getId t) := by
  intro fuel
  induction fuel with
  | zero => intro idx j hj; exact absurd hj (by simp [findNextGo])
  | succ fuel ih =>
    intro idx j hj
    rw [findNextGo] at hj
    by_cases hcond : h.in_valid_range (next_fn idx h.max_size) = false
        ∨ next_fn idx h.max_size = stop_idx
    · rw [if_pos hcond] at hj; cases hj
    · rw [if_neg hcond] at hj
      push_neg at hcond
      obtain ⟨hvalid, hstop⟩ := hcond
      simp only [ne_eq, Bool.not_eq_false] at hvalid
      cases hev : h.events[next_fn idx h.max_size]? with
      | none =>
        simp only [hev] at hj
        exact Option.noConfusion hj
      | some ev =>
        cases ev with
        | active t =>
          cases hinit : initial_id with
          | some i0 =>
            simp only [hev, hinit] at hj
            by_cases hid : getId t = i0
            · rw [if_pos hid] at hj
              rw [← hinit] at hj ⊢
              exact ih hj
            · rw [if_neg hid] at hj
              injection hj with hj
              subst hj
              refine ⟨hvalid, hstop, t, hev, ?_⟩
              intro hc
              exact hid (Option.some.inj hc).symm
          | none =>
            simp only [hev, hinit] at hj
            injection hj with hj
            subst hj
            exact ⟨hvalid, hstop, t, hev, by simp⟩
        | inactive t =>
          simp only [hev] at hj
          exact ih hj
        | deleted =>
          simp only [hev] at hj
          exact ih hj

lemma findNextGo_from_boundary {h : EventHistory T ID} (initial_id : Option ID)
    (next_fn : ℕ → ℕ → ℕ) (B : ℕ) (fuel : ℕ) :
    findNextGo getId h (next_fn B h.max_size) next_fn initial_id fuel B = none := by
  cases fuel with
  | zero => rfl
  | succ fuel =>
    rw [findNextGo]
    simp

lemma findNextGo_eq_ringPath {h : EventHistory T ID} (initial_id : Option ID)
    (next_fn : ℕ → ℕ → ℕ) (B : ℕ)
    (hBlen : B < h.events.length)
    (hBvalid : h.in_valid_range B = true)
    (hfix : next_fn B h.max_size ≠ B)
    (hinj : ∀ a, a < h.max_size → next_fn a h.max_size = next_fn B h.max_size → a = B)
    (hstep : ∀ a, a < h.max_size → h.in_valid_range a = true → a ≠ B →
      h.in_valid_range (next_fn a h.max_size) = true ∧
      next_fn a h.max_size < h.max_size ∧ next_fn a h.max_size < h.events.length) :
    ∀ fuel idx, idx < h.max_size → h.in_valid_range idx = true → idx ≠ B →
      findNextGo getId h (next_fn B h.max_size) next_fn initial_id fuel idx
        = (ringPath next_fn h.max_size B fuel idx).find? (navTarget getId h initial_id) := by
  intro fuel
  induction fuel with
  | zero => intro idx _ _ _; rfl
  | succ fuel ih =>
    intro idx hidx hvalid hne
    simp only [findNextGo, ringPath]
    by_cases hjB : next_fn idx h.max_size = B
    · rw [if_pos hjB, hjB]
      have hcond : ¬(h.in_valid_range B = false ∨ B = next_fn B h.max_size) := by
        rw [not_or, hBvalid]
        exact ⟨by simp, fun hc => hfix hc.symm⟩
      rw [if_neg hcond]
      cases hevB : h.events[B]? with
      | none =>
        rw [List.getElem?_eq_none_iff] at hevB
        omega
      | some ev =>
        cases ev with
        | active t =>
          cases initial_id with
          | some i0 =>
            simp only [hevB]
            by_cases hid : getId t = i0
            · rw [if_pos hid, findNextGo_from_boundary]
              rw [List.find?_cons_of_neg _ (by simp [navTarget, hevB, hid]), List.find?_nil]
            · rw [if_neg hid]
              rw [List.find?_cons_of_pos _ (by
                simp [navTarget, hevB]
                exact fun hc => hid hc.symm)]
          | none =>
            simp only [hevB]
            rw [List.find?_cons_of_pos _ (by simp [navTarget, hevB])]
        | inactive t =>
          simp only [hevB]
          rw [findNextGo_from_boundary,
            List.find?_cons_of_neg _ (by simp [navTarget, hevB]), List.find?_nil]
        | deleted =>
          simp only [hevB]
          rw [findNextGo_from_boundary,
            List.find?_cons_of_neg _ (by simp [navTarget, hevB]), List.find?_nil]
    · rw [if_neg hjB]
      obtain ⟨hv', hlt', hlen'⟩ := hstep idx hidx hvalid hne
      have hjstop : next_fn idx h.max_size ≠ next_fn B h.max_size := by
        intro hc
        exact hne (hinj idx hidx hc)
      have hcond : ¬(h.in_valid_range (next_fn idx h.max_size) = false
          ∨ next_fn idx h.max_size = next_fn B h.max_size) := by
        rw [not_or, hv']
        exact ⟨by simp, hjstop⟩
      rw [if_neg hcond]
      cases hev : h.events[next_fn idx h.max_size]? with
      | none =>
        rw [List.getElem?_eq_none_iff] at hev
        omega
      | some ev =>
        cases ev with
        | active t =>
          cases initial_id with
          | some i0 =>
            simp only [hev]
            by_cases hid : getId t = i0
            · rw [if_pos hid, List.find?_cons_of_neg _ (by simp [navTarget, hev, hid])]
              exact ih (next_fn idx h.max_size) hlt' hv' hjB
            · rw [if_neg hid, List.find?_cons_of_pos _ (by
                simp [navTarget, hev]
                exact fun hc => hid hc.symm)]
          | none =>
            simp only [hev]
            rw [List.find?_cons_of_pos _ (by simp [navTarget, hev])]
        | inactive t =>
          simp only [hev]
          rw [List.find?_cons_of_neg _ (by simp [navTarget, hev])]
          exact ih (next_fn idx h.max_size) hlt' hv' hjB
        | deleted =>
          simp only [hev]
          rw [List.find?_cons_of_neg _ (by simp [navTarget, hev])]
          exact ih (next_fn idx h.max_size) hlt' hv' hjB

lemma in_valid_range_true_iff {h : EventHistory T ID} (hne : h.events.isEmpty = false) (idx : ℕ) :
    h.in_valid_range idx = true ↔
      ((h.history_start ≤ h.head → h.history_start ≤ idx ∧ idx ≤ h.head) ∧
       (h.head < h.history_start → h.history_start ≤ idx ∨ idx ≤ h.head)) := by
  unfold EventHistory.in_valid_range
  rw [if_neg (by simp [hne])]
  by_cases hsh : h.history_start ≤ h.head
  · rw [if_pos hsh, decide_eq_true_eq]; omega
  · rw [if_neg hsh, decide_eq_true_eq]; omega

lemma events_isEmpty_false {h : EventHistory T ID} (hlen0 : 0 < h.events.length) :
    h.events.isEmpty = false := by
  cases hev : h.events with
  | nil => rw [hev] at hlen0; simp at hlen0
  | cons x xs => simp [hev]

lemma valid_head {h : EventHistory T ID} (hlen0 : 0 < h.events.length) :
    h.in_valid_range h.head = true := by
  rw [in_valid_range_true_iff (events_isEmpty_false hlen0)]
  omega

lemma valid_next_step {h : EventHistory T ID}
    (hlen : h.events.length ≤ h.max_size)
    (hhead : h.head < h.events.length)
    (hstat : h.static_history = true → h.history_start = 0)
    (hdyn : h.static_history = false → h.events.length = h.max_size) :
    ∀ a, a < h.max_size → h.in_valid_range a = true → a ≠ h.head →
      h.in_valid_range (traverse.next a h.max_size) = true ∧
      traverse.next a h.max_size < h.max_size ∧
      traverse.next a h.max_size < h.events.length := by
  intro a ha hva hane
  have hne0 : h.events.isEmpty = false := events_isEmpty_false (by omega)
  rw [in_valid_range_true_iff hne0] at hva
  rw [in_valid_range_true_iff hne0]
  have hcase : h.history_start = 0 ∨ h.events.length = h.max_size := by
    cases hst : h.static_history
    · exact Or.inr (hdyn hst)
    · exact Or.inl (hstat hst)
  unfold traverse.next
  split <;> omega

lemma valid_prev_step {h : EventHistory T ID}
    (hlen : h.events.length ≤ h.max_size)
    (hhead : h.head < h.events.length)
    (hsm : h.history_start < h.max_size)
    (hstat : h.static_history = true → h.history_start = 0)
    (hdyn : h.static_history = false → h.events.length = h.max_size) :
    ∀ a, a < h.max_size → h.in_valid_range a = true → a ≠ h.history_start →
      h.in_valid_range (traverse.prev a h.max_size) = true ∧
      traverse.prev a h.max_size < h.max_size ∧
      traverse.prev a h.max_size < h.events.length := by
  intro a ha hva hane
  have hne0 : h.events.isEmpty = false := events_isEmpty_false (by omega)
  rw [in_valid_range_true_iff hne0] at hva
  rw [in_valid_range_true_iff hne0]
  have hcase : h.history_start = 0 ∨ h.events.length = h.max_size := by
    cases hst : h.static_history
    · exact Or.inr (hdyn hst)
    · exact Or.inl (hstat hst)
  unfold traverse.prev
  split <;> omega

lemma navTarget_code_eq_spec {h : EventHistory T ID}
    (hsafe : cursorInactiveSafe getId h = true) :
    navTarget getId h (h.get_idx_id getId h.cursor) = navTarget getId h (curIdSpec getId h) := by
  funext i
  unfold navTarget EventHistory.get_idx_id curIdSpec
  cases hc : h.events[h.cursor]? with
  | none => rfl
  | some ev =>
    cases ev with
    | active t => rfl
    | inactive t =>
      cases hi : h.events[i]? with
      | none => rfl
      | some evi =>
        cases evi with
        | active u =>
          unfold cursorInactiveSafe at hsafe
          simp only [hc] at hsafe
          have hmem : (EventStatus.active u) ∈ h.events := List.getElem?_mem hi
          have hau := List.all_eq_true.mp hsafe _ hmem
          simp only [decide_eq_true_eq] at hau
          simp only [EventStatus.get_event]
          simp [Ne.symm hau]
        | inactive u => rfl
        | deleted => rfl
    | deleted => rfl

lemma next_active_cursor_eq {h : EventHistory T ID} (hinv : HistInv getId h)
    (hch : h.cursor ≠ h.head) :
    h.next_active_idx getId h.cursor
      = (ringPath traverse.next h.max_size h.head h.max_size h.cursor).find?
          (navTarget getId h (curIdSpec getId h)) := by
  obtain ⟨hmax, hlen, hsm, hempty, hpos, hstat, hdyn, hsafe, hrest⟩ := hinv
  have hlen0 : 0 < h.events.length := by
    rcases Nat.eq_zero_or_pos h.events.length with hz | hp
    · obtain ⟨hc0, hh0, _, _⟩ := hempty hz
      exact absurd (hc0.trans hh0.symm) hch
    · exact hp
  obtain ⟨hcl, hhl, hcv⟩ := hpos hlen0
  have hmax2 : 2 ≤ h.max_size := by
    by_contra hm2
    push_neg at hm2
    interval_cases hm : h.max_size <;> omega
  have hkey : h.next_active_idx getId h.cursor
      = (ringPath traverse.next h.max_size h.head h.max_size h.cursor).find?
          (navTarget getId h (h.get_idx_id getId h.cursor)) := by
    unfold EventHistory.next_active_idx EventHistory.find_next EventHistory.next_idx
    rw [if_neg hch]
    exact findNextGo_eq_ringPath getId _ traverse.next h.head hhl (valid_head hlen0)
      (by unfold traverse.next; split <;> omega)
      (fun a ha hc => traverse.next_inj ha (by omega) hc)
      (valid_next_step hlen hhl hstat hdyn)
      h.max_size h.cursor (by omega) hcv hch
  rw [hkey, navTarget_code_eq_spec getId hsafe]

lemma prev_active_cursor_eq {h : EventHistory T ID} (hinv : HistInv getId h)
    (hch : h.cursor ≠ h.history_start) :
    h.prev_active_idx getId h.cursor
      = (ringPath traverse.prev h.max_size h.history_start h.max_size h.cursor).find?
          (navTarget getId h (curIdSpec getId h)) := by
  obtain ⟨hmax, hlen, hsm, hempty, hpos, hstat, hdyn, hsafe, hrest⟩ := hinv
  have hlen0 : 0 < h.events.length := by
    rcases Nat.eq_zero_or_pos h.events.length with hz | hp
    · obtain ⟨hc0, _, hh0, _⟩ := hempty hz
      exact absurd (hc0.trans hh0.symm) hch
    · exact hp
  obtain ⟨hcl, hhl, hcv⟩ := hpos hlen0
  have hsl : h.history_start < h.events.length := by
    have hcase : h.history_start = 0 ∨ h.events.length = h.max_size := by
      cases hst : h.static_history
      · exact Or.inr (hdyn hst)
      · exact Or.inl (hstat hst)
    omega
  have hmax2 : 2 ≤ h.max_size := by
    by_contra hm2
    push_neg at hm2
    interval_cases hm : h.max_size <;> omega
  have hkey : h.prev_active_idx getId h.cursor
      = (ringPath traverse.prev h.max_size h.history_start h.max_size h.cursor).find?
          (navTarget getId h (h.get_idx_id getId h.cursor)) := by
    unfold EventHistory.prev_active_idx EventHistory.find_next EventHistory.prev_idx
    rw [if_neg hch]
    exact findNextGo_eq_ringPath getId _ traverse.prev h.history_start hsl
      (by rw [in_valid_range_true_iff (events_isEmpty_false hlen0)]; omega)
      (by unfold traverse.prev; split <;> omega)
      (fun a ha hc => traverse.prev_inj ha (by omega) hc)
      (valid_prev_step hlen hhl hsm hstat hdyn)
      h.max_size h.cursor (by omega) hcv hch
  rw [hkey, navTarget_code_eq_spec getId hsafe]

lemma forward_eq_spec {h : EventHistory T ID} (hinv : HistInv getId h) :
    h.forward getId = forwardSpecFn getId h := by
  by_cases hch : h.cursor = h.head
  · unfold EventHistory.forward forwardSpecFn forwardSpecIdx EventHistory.next_active_idx
    rw [if_pos hch, if_pos hch]
  · have hkey := next_active_cursor_eq getId hinv hch
    have hidx : forwardSpecIdx getId h = h.next_active_idx getId h.cursor := by
      unfold forwardSpecIdx
      rw [if_neg hch, ← hkey]
    unfold EventHistory.forward forwardSpecFn
    rw [hidx]

lemma backward_eq_spec {h : EventHistory T ID} (hinv : HistInv getId h) :
    h.backward getId = backwardSpecFn getId h := by
  by_cases hch : h.cursor = h.history_start
  · unfold EventHistory.backward backwardSpecFn backwardSpecIdx EventHistory.prev_active_idx
    rw [if_pos hch, if_pos hch]
  · have hkey := prev_active_cursor_eq getId hinv hch
    have hidx : backwardSpecIdx getId h = h.prev_active_idx getId h.cursor := by
      unfold backwardSpecIdx
      rw [if_neg hch, ← hkey]
    unfold EventHistory.backward backwardSpecFn
    rw [hidx]

lemma markDeletedFold_length {T : Type u} :
    ∀ (idxs : List ℕ) (evs : List (EventStatus T)) (c : EventStatusCount),
      (markDeletedFold idxs (evs, c)).1.length = evs.length := by
  intro idxs
  induction idxs with
  | nil => intro evs c; rfl
  | cons j rest ih =>
    intro evs c
    rw [markDeletedFold]
    rw [ih]
    exact List.length_set evs j _

lemma markDeletedFold_getElem? {T : Type u} :
    ∀ (idxs : List ℕ) (evs : List (EventStatus T)) (c : EventStatusCount) (i : ℕ),
      (markDeletedFold idxs (evs, c)).1[i]?
        = if i ∈ idxs then evs[i]?.map (fun _ => EventStatus.deleted) else evs[i]? := by
  intro idxs
  induction idxs with
  | nil => intro evs c i; simp [markDeletedFold]
  | cons j rest ih =>
    intro evs c i
    rw [markDeletedFold, ih]
    by_cases hij : i = j
    · subst hij
      rw [List.getElem?_set_self', if_pos (List.mem_cons_self i rest)]
      by_cases hir : i ∈ rest
      · rw [if_pos hir]
        cases evs[i]? <;> rfl
      · rw [if_neg hir]
        cases evs[i]? <;> rfl
    · by_cases hir : i ∈ rest
      · rw [if_pos hir, if_pos (by simp [hir]), List.getElem?_set_ne (fun hc => hij hc.symm)]
      · rw [if_neg hir, if_neg (by simp [hir, hij]), List.getElem?_set_ne (fun hc => hij hc.symm)]

lemma deactivateFold_length {T : Type u} :
    ∀ (idxs : List ℕ) (evs : List (EventStatus T)) (c : EventStatusCount),
      (deactivateFold idxs (evs, c)).1.length = evs.length := by
  intro idxs
  induction idxs with
  | nil => intro evs c; rfl
  | cons j rest ih =>
    intro evs c
    rw [deactivateFold]
    cases hev : evs[j]? with
    | none => exact ih evs c
    | some ev =>
      cases ev with
      | active t => rw [ih]; exact List.length_set evs j _
      | inactive t => exact ih evs c
      | deleted => exact ih evs c

lemma deactivateFold_getElem? {T : Type u} :
    ∀ (idxs : List ℕ) (evs : List (EventStatus T)) (c : EventStatusCount) (i : ℕ),
      (deactivateFold idxs (evs, c)).1[i]?
        = if i ∈ idxs then
            (match evs[i]? with
             | some (.active t) => some (EventStatus.inactive t)
             | x => x)
          else evs[i]? := by
  intro idxs
  induction idxs with
  | nil => intro evs c i; simp [deactivateFold]
  | cons j rest ih =>
    intro evs c i
    rw [deactivateFold]
    cases hev : evs[j]? with
    | some ev =>
      cases ev with
      | active t =>
        simp only [hev]
        rw [ih]
        by_cases hij : i = j
        · subst hij
          have hset : (evs.set i (EventStatus.inactive t))[i]? = some (EventStatus.inactive t) := by
            rw [List.getElem?_set_self', hev]
            rfl
          by_cases hir : i ∈ rest
          · rw [if_pos hir, if_pos (by simp), hset, hev]
          · rw [if_neg hir, if_pos (by simp), hset, hev]
        · rw [List.getElem?_set_ne (fun hc => hij hc.symm)]
          by_cases hir : i ∈ rest
          · rw [if_pos hir, if_pos (by simp [hir])]
          · rw [if_neg hir, if_neg (by simp [hir, hij])]
      | inactive t =>
        simp only [hev]
        rw [ih]
        by_cases hir : i ∈ rest
        · rw [if_pos hir, if_pos (by simp [hir])]
        · rw [if_neg hir]
          by_cases hij : i = j
          · subst hij
            rw [if_pos (by simp), hev]
          · rw [if_neg (by simp [hir, hij])]
      | deleted =>
        simp only [hev]
        rw [ih]
        by_cases hir : i ∈ rest
        · rw [if_pos hir, if_pos (by simp [hir])]
        · rw [if_neg hir]
          by_cases hij : i = j
          · subst hij
            rw [if_pos (by simp), hev]
          · rw [if_neg (by simp [hir, hij])]
    | none =>
      simp only [hev]
      rw [ih]
      by_cases hir : i ∈ rest
      · rw [if_pos hir, if_pos (by simp [hir])]
      · rw [if_neg hir]
        by_cases hij : i = j
        · subst hij
          rw [if_pos (by simp), hev]
        · rw [if_neg (by simp [hir, hij])]

lemma activateFold_length {T : Type u} :
    ∀ (idxs : List ℕ) (evs : List (EventStatus T)) (c : EventStatusCount),
      (activateFold idxs (evs, c)).1.length = evs.length := by
  intro idxs
  induction idxs with
  | nil => intro evs c; rfl
  | cons j rest ih =>
    intro evs c
    rw [activateFold]
    cases hev : evs[j]? with
    | none => exact ih evs c
    | some ev =>
      cases ev with
      | active t => exact ih evs c
      | inactive t => rw [ih]; exact List.length_set evs j _
      | deleted => exact ih evs c

lemma activateFold_getElem? {T : Type u} :
    ∀ (idxs : List ℕ) (evs : List (EventStatus T)) (c : EventStatusCount) (i : ℕ),
      (activateFold idxs (evs, c)).1[i]?
        = if i ∈ idxs then
            (match evs[i]? with
             | some (.inactive t) => some (EventStatus.active t)
             | x => x)
          else evs[i]? := by
  intro idxs
  induction idxs with
  | nil => intro evs c i; simp [activateFold]
  | cons j rest ih =>
    intro evs c i
    rw [activateFold]
    cases hev : evs[j]? with
    | some ev =>
      cases ev with
      | inactive t =>
        simp only [hev]
        rw [ih]
        by_cases hij : i = j
        · subst hij
          have hset : (evs.set i (EventStatus.active t))[i]? = some (EventStatus.active t) := by
            rw [List.getElem?_set_self', hev]
            rfl
          by_cases hir : i ∈ rest
          · rw [if_pos hir, if_pos (by simp), hset, hev]
          · rw [if_neg hir, if_pos (by simp), hset, hev]
        · rw [List.getElem?_set_ne (fun hc => hij hc.symm)]
          by_cases hir : i ∈ rest
          · rw [if_pos hir, if_pos (by simp [hir])]
          · rw [if_neg hir, if_neg (by simp [hir, hij])]
      | active t =>
        simp only [hev]
        rw [ih]
        by_cases hir : i ∈ rest
        · rw [if_pos hir, if_pos (by simp [hir])]
        · rw [if_neg hir]
          by_cases hij : i = j
          · subst hij
            rw [if_pos (by simp), hev]
          · rw [if_neg (by simp [hir, hij])]
      | deleted =>
        simp only [hev]
        rw [ih]
        by_cases hir : i ∈ rest
        · rw [if_pos hir, if_pos (by simp [hir])]
        · rw [if_neg hir]
          by_cases hij : i = j
          · subst hij
            rw [if_pos (by simp), hev]
          · rw [if_neg (by simp [hir, hij])]
    | none =>
      simp only [hev]
      rw [ih]
      by_cases hir : i ∈ rest
      · rw [if_pos hir, if_pos (by simp [hir])]
      · rw [if_neg hir]
        by_cases hij : i = j
        · subst hij
          rw [if_pos (by simp), hev]
        · rw [if_neg (by simp [hir, hij])]

lemma setInsert_mem {idx x : ℕ} {s : List ℕ} :
    x ∈ setInsert idx s ↔ x = idx ∨ x ∈ s := by
  unfold setInsert
  split
  · rename_i hmem
    constructor
    · exact fun hx => Or.inr hx
    · rintro (rfl | hx)
      · exact hmem
      · exact hx
  · simp [List.mem_cons]

lemma setInsert_nodup {idx : ℕ} {s : List ℕ} (hs : s.Nodup) :
    (setInsert idx s).Nodup := by
  unfold setInsert
  split
  · exact hs
  · exact List.nodup_cons.mpr ⟨by assumption, hs⟩

lemma mapRemoveKey_fst {m : List (ID × List ℕ)} {key : ID} :
    (mapRemoveKey m key).1 = mapFind? m key := by
  induction m with
  | nil => rfl
  | cons p rest ih =>
    obtain ⟨k, v⟩ := p
    rw [mapRemoveKey, mapFind?]
    split
    · rfl
    · exact ih

lemma mapRemoveKey_mem {m : List (ID × List ℕ)} {key : ID} {p : ID × List ℕ}
    (hp : p ∈ (mapRemoveKey m key).2) : p ∈ m := by
  induction m with
  | nil => exact absurd hp (by simp [mapRemoveKey])
  | cons q rest ih =>
    obtain ⟨k, v⟩ := q
    rw [mapRemoveKey] at hp
    split at hp
    · exact List.mem_cons_of_mem _ hp
    · rcases List.mem_cons.mp hp with h1 | h2
      · exact h1 ▸ List.mem_cons_self _ _
      · exact List.mem_cons_of_mem _ (ih h2)

lemma mapRemoveKey_keys_sublist {m : List (ID × List ℕ)} {key : ID} :
    ((mapRemoveKey m key).2.map Prod.fst).Sublist (m.map Prod.fst) := by
  induction m with
  | nil => simp [mapRemoveKey]
  | cons q rest ih =>
    obtain ⟨k, v⟩ := q
    rw [mapRemoveKey]
    split
    · simp
    · simpa using ih.cons₂ k

lemma mapRemoveKey_find_ne {m : List (ID × List ℕ)} {key key' : ID} (hne : key' ≠ key) :
    mapFind? (mapRemoveKey m key).2 key' = mapFind? m key' := by
  induction m with
  | nil => rfl
  | cons q rest ih =>
    obtain ⟨k, v⟩ := q
    rw [mapRemoveKey]
    split
    · rename_i hk
      rw [mapFind?, if_neg (by rw [hk]; exact fun hc => hne hc.symm)]
    · rw [mapFind?, mapFind?]
      split
      · rfl
      · exact ih

lemma mapFind?_cons_self {rest : List (ID × List ℕ)} {k : ID} {v : List ℕ} :
    mapFind? ((k, v) :: rest) k = some v := by
  rw [mapFind?, if_pos rfl]

lemma mapFind?_cons_ne {rest : List (ID × List ℕ)} {k key : ID} {v : List ℕ}
    (hne : k ≠ key) :
    mapFind? ((k, v) :: rest) key = mapFind? rest key := by
  rw [mapFind?, if_neg hne]

lemma mapIdxs_cons_self {rest : List (ID × List ℕ)} {k : ID} {v : List ℕ} :
    mapIdxs ((k, v) :: rest) k = v := by
  rw [mapIdxs, mapFind?_cons_self]
  rfl

lemma mapIdxs_cons_ne {rest : List (ID × List ℕ)} {k key : ID} {v : List ℕ}
    (hne : k ≠ key) :
    mapIdxs ((k, v) :: rest) key = mapIdxs rest key := by
  rw [mapIdxs, mapFind?_cons_ne hne]
  rfl

lemma mapFind?_none_iff {m : List (ID × List ℕ)} {key : ID} :
    mapFind? m key = none ↔ key ∉ m.map Prod.fst := by
  induction m with
  | nil => simp [mapFind?]
  | cons q rest ih =>
    obtain ⟨k, v⟩ := q
    rw [mapFind?]
    split
    · rename_i hk
      subst hk
      simp
    · rename_i hk
      simp only [List.map_cons, List.mem_cons]
      rw [ih]
      constructor
      · rintro hn (hc | hc)
        · exact hk hc.symm
        · exact hn hc
      · intro hn hc
        exact hn (Or.inr hc)

lemma mapRemoveKey_find_self {m : List (ID × List ℕ)} {key : ID}
    (hnd : (m.map Prod.fst).Nodup) :
    mapFind? (mapRemoveKey m key).2 key = none := by
  induction m with
  | nil => rfl
  | cons q rest ih =>
    obtain ⟨k, v⟩ := q
    rw [List.map_cons, List.nodup_cons] at hnd
    rw [mapRemoveKey]
    split
    · rename_i hk
      subst hk
      exact mapFind?_none_iff.mpr hnd.1
    · rename_i hk
      rw [mapFind?, if_neg hk]
      exact ih hnd.2

lemma mapInsertIdx_find_self {m : List (ID × List ℕ)} {key : ID} {idx : ℕ} :
    mapFind? (mapInsertIdx m key idx) key = some (setInsert idx (mapIdxs m key)) := by
  induction m with
  | nil => simp [mapInsertIdx, mapFind?, mapIdxs, setInsert]
  | cons q rest ih =>
    obtain ⟨k, v⟩ := q
    rw [mapInsertIdx]
    split
    · rename_i hk
      subst hk
      rw [mapFind?_cons_self, mapIdxs_cons_self]
    · rename_i hk
      rw [mapFind?_cons_ne hk, mapIdxs_cons_ne hk]
      exact ih

lemma mapInsertIdx_find_ne {m : List (ID × List ℕ)} {key key' : ID} {idx : ℕ}
    (hne : key' ≠ key) :
    mapFind? (mapInsertIdx m key idx) key' = mapFind? m key' := by
  induction m with
  | nil =>
    rw [mapInsertIdx, mapFind?_cons_ne (fun hc => hne hc.symm)]
  | cons q rest ih =>
    obtain ⟨k, v⟩ := q
    rw [mapInsertIdx]
    split
    · rename_i hk
      subst hk
      rw [mapFind?_cons_ne (fun hc => hne hc.symm), mapFind?_cons_ne (fun hc => hne hc.symm)]
    · rename_i hk
      by_cases hkk : k = key'
      · subst hkk
        rw [mapFind?_cons_self, mapFind?_cons_self]
      · rw [mapFind?_cons_ne hkk, mapFind?_cons_ne hkk]
        exact ih

lemma mapInsertIdx_keys_mem {m : List (ID × List ℕ)} {key x : ID} {idx : ℕ} :
    x ∈ (mapInsertIdx m key idx).map Prod.fst ↔ x ∈ m.map Prod.fst ∨ x = key := by
  induction m with
  | nil => simp [mapInsertIdx]
  | cons q rest ih =>
    obtain ⟨k, v⟩ := q
    rw [mapInsertIdx]
    split
    · rename_i hk
      subst hk
      simp only [List.map_cons, List.mem_cons]
      constructor
      · rintro (rfl | hx)
        · exact Or.inl (Or.inl rfl)
        · exact Or.inl (Or.inr hx)
      · rintro ((rfl | hx) | rfl)
        · exact Or.inl rfl
        · exact Or.inr hx
        · exact Or.inl rfl
    · simp only [List.map_cons, List.mem_cons]
      rw [ih]
      tauto

lemma mapInsertIdx_keys_nodup {m : List (ID × List ℕ)} {key : ID} {idx : ℕ}
    (hnd : (m.map Prod.fst).Nodup) :
    ((mapInsertIdx m key idx).map Prod.fst).Nodup := by
  induction m with
  | nil => simp [mapInsertIdx]
  | cons q rest ih =>
    obtain ⟨k, v⟩ := q
    rw [List.map_cons, List.nodup_cons] at hnd
    rw [mapInsertIdx]
    split
    · rename_i hk
      subst hk
      rw [List.map_cons, List.nodup_cons]
      exact ⟨hnd.1, hnd.2⟩
    · rename_i hk
      rw [List.map_cons, List.nodup_cons]
      refine ⟨fun hc => ?_, ih hnd.2⟩
      rcases mapInsertIdx_keys_mem.mp hc with hm | rfl
      · exact hnd.1 hm
      · exact hk rfl

lemma mapInsertIdx_values_nodup {m : List (ID × List ℕ)} {key : ID} {idx : ℕ}
    (hv : ∀ p ∈ m, p.2.Nodup) :
    ∀ p ∈ mapInsertIdx m key idx, p.2.Nodup := by
  induction m with
  | nil =>
    intro p hp
    rw [mapInsertIdx] at hp
    rw [List.mem_singleton] at hp
    rw [hp]
    simp
  | cons q rest ih =>
    obtain ⟨k, v⟩ := q
    intro p hp
    rw [mapInsertIdx] at hp
    split at hp
    · rcases List.mem_cons.mp hp with rfl | h2
      · exact setInsert_nodup (hv (k, v) (List.mem_cons_self _ _))
      · exact hv p (List.mem_cons_of_mem _ h2)
    · rcases List.mem_cons.mp hp with rfl | h2
      · exact hv _ (List.mem_cons_self _ _)
      · exact ih (fun q hq => hv q (List.mem_cons_of_mem _ hq)) p h2

lemma mapRemoveIdx_find_self {m : List (ID × List ℕ)} {key : ID} {idx : ℕ}
    (hnd : (m.map Prod.fst).Nodup) :
    mapIdxs (mapRemoveIdx m key idx) key = (mapIdxs m key).erase idx := by
  induction m with
  | nil => simp [mapRemoveIdx, mapIdxs, mapFind?]
  | cons q rest ih =>
    obtain ⟨k, v⟩ := q
    rw [List.map_cons, List.nodup_cons] at hnd
    rw [mapRemoveIdx]
    split
    · rename_i hk
      subst hk
      rw [mapIdxs_cons_self]
      split
      · rename_i hveq
        rw [mapIdxs, mapFind?_none_iff.mpr hnd.1, hveq]
        rfl
      · rw [mapIdxs_cons_self]
    · rename_i hk
      rw [mapIdxs_cons_ne hk, mapIdxs_cons_ne hk]
      exact ih hnd.2

lemma mapRemoveIdx_find_ne {m : List (ID × List ℕ)} {key key' : ID} {idx : ℕ}
    (hne : key' ≠ key) :
    mapFind? (mapRemoveIdx m key idx) key' = mapFind? m key' := by
  induction m with
  | nil => rfl
  | cons q rest ih =>
    obtain ⟨k, v⟩ := q
    rw [mapRemoveIdx]
    split
    · rename_i hk
      subst hk
      split
      · rw [mapFind?_cons_ne (fun hc => hne hc.symm)]
      · rw [mapFind?_cons_ne (fun hc => hne hc.symm), mapFind?_cons_ne (fun hc => hne hc.symm)]
    · rename_i hk
      by_cases hkk : k = key'
      · subst hkk
        rw [mapFind?_cons_self, mapFind?_cons_self]
      · rw [mapFind?_cons_ne hkk, mapFind?_cons_ne hkk]
        exact ih

lemma mapRemoveIdx_keys_sublist {m : List (ID × List ℕ)} {key : ID} {idx : ℕ} :
    ((mapRemoveIdx m key idx).map Prod.fst).Sublist (m.map Prod.fst) := by
  induction m with
  | nil => simp [mapRemoveIdx]
  | cons q rest ih =>
    obtain ⟨k, v⟩ := q
    rw [mapRemoveIdx]
    split
    · split
      · simp
      · simp
    · simpa using ih.cons₂ k

lemma mapRemoveIdx_values_nodup {m : List (ID × List ℕ)} {key : ID} {idx : ℕ}
    (hv : ∀ p ∈ m, p.2.Nodup) :
    ∀ p ∈ mapRemoveIdx m key idx, p.2.Nodup := by
  induction m with
  | nil => intro p hp; simp [mapRemoveIdx] at hp
  | cons q rest ih =>
    obtain ⟨k, v⟩ := q
    intro p hp
    rw [mapRemoveIdx] at hp
    split at hp
    · split at hp
      · exact hv p (List.mem_cons_of_mem _ hp)
      · rcases List.mem_cons.mp hp with rfl | h2
        · exact List.Nodup.erase idx (hv (k, v) (List.mem_cons_self _ _))
        · exact hv p (List.mem_cons_of_mem _ h2)
    · rcases List.mem_cons.mp hp with rfl | h2
      · exact hv _ (List.mem_cons_self _ _)
      · exact ih (fun q hq => hv q (List.mem_cons_of_mem _ hq)) p h2

lemma mapSound_iff {h : EventHistory T ID} :
    mapSound getId h = true ↔
      ∀ p ∈ h.event_idx_map, ∀ i ∈ p.2,
        ∃ t, (h.events[i]? = some (.active t) ∨ h.events[i]? = some (.inactive t)) ∧
          getId t = p.1 := by
  unfold mapSound
  rw [List.all_eq_true]
  constructor
  · intro hall p hp i hi
    have := List.all_eq_true.mp (hall p hp) i hi
    cases hev : h.events[i]? with
    | none => rw [hev] at this; simp at this
    | some ev =>
      cases ev with
      | active t =>
        rw [hev] at this
        simp only [decide_eq_true_eq] at this
        exact ⟨t, Or.inl rfl, this⟩
      | inactive t =>
        rw [hev] at this
        simp only [decide_eq_true_eq] at this
        exact ⟨t, Or.inr rfl, this⟩
      | deleted => rw [hev] at this; simp at this
  · intro hall p hp
    rw [List.all_eq_true]
    intro i hi
    obtain ⟨t, hev, hid⟩ := hall p hp i hi
    rcases hev with hev | hev <;> rw [hev] <;> simp [hid]

lemma mapComplete_iff {h : EventHistory T ID} :
    mapComplete getId h = true ↔
      ∀ i t, (h.events[i]? = some (.active t) ∨ h.events[i]? = some (.inactive t)) →
        i ∈ mapIdxs h.event_idx_map (getId t) := by
  unfold mapComplete
  rw [List.all_eq_true]
  constructor
  · intro hall i t hev
    have hilt : i < h.events.length := by
      rcases hev with hev | hev <;> exact (List.getElem?_eq_some.mp hev).1
    have := hall i (List.mem_range.mpr hilt)
    rcases hev with hev | hev <;> rw [hev] at this <;>
      simpa only [decide_eq_true_eq] using this
  · intro hall i _
    cases hev : h.events[i]? with
    | none => simp
    | some ev =>
      cases ev with
      | active t => simpa using hall i t (Or.inl hev)
      | inactive t => simpa using hall i t (Or.inr hev)
      | deleted => simp

lemma cursorInactiveSafe_iff {h : EventHistory T ID} :
    cursorInactiveSafe getId h = true ↔
      ∀ t, h.events[h.cursor]? = some (EventStatus.inactive t) →
        ∀ (j : ℕ) (u : T), h.events[j]? = some (EventStatus.active u) →
          getId u ≠ getId t := by
  unfold cursorInactiveSafe
  cases hc : h.events[h.cursor]? with
  | none =>
    constructor
    · intro _ t ht
      cases ht
    · intro _
      rfl
  | some ev =>
    cases ev with
    | active t =>
      constructor
      · intro _ t' ht'
        cases ht'
      · intro _
        rfl
    | inactive t =>
      rw [List.all_eq_true]
      constructor
      · intro hall t' ht'
        have ht2 : t' = t := by
          injection ht' with h1
          injection h1 with h2
          exact h2.symm
        subst ht2
        intro j u hu
        have hmem : (EventStatus.active u) ∈ h.events := List.getElem?_mem hu
        simpa only [decide_eq_true_eq] using hall _ hmem
      · intro hsafe e hmem
        cases e with
        | active u =>
          obtain ⟨j, hj⟩ := List.mem_iff_getElem?.mp hmem
          simpa using hsafe t rfl j u hj
        | inactive u => rfl
        | deleted => rfl
    | deleted =>
      constructor
      · intro _ t' ht'
        cases ht'
      · intro _
        rfl

lemma find_next_some {h : EventHistory T ID} {current stop_idx j : ℕ}
    {next_fn : ℕ → ℕ → ℕ}
    (hj : h.find_next getId current stop_idx next_fn = some j) :
    h.in_valid_range j = true ∧ j < h.events.length ∧
      ∃ t, h.events[j]? = some (.active t) := by
  unfold EventHistory.find_next at hj
  obtain ⟨hv, _, t, hev, _⟩ := findNextGo_some getId hj
  exact ⟨hv, (List.getElem?_eq_some.mp hev).1, t, hev⟩

lemma next_active_idx_some {h : EventHistory T ID} {cur j : ℕ}
    (hj : h.next_active_idx getId cur = some j) :
    h.in_valid_range j = true ∧ j < h.events.length ∧
      ∃ t, h.events[j]? = some (.active t) := by
  unfold EventHistory.next_active_idx at hj
  split at hj
  · cases hj
  · exact find_next_some getId hj

lemma prev_active_idx_some {h : EventHistory T ID} {cur j : ℕ}
    (hj : h.prev_active_idx getId cur = some j) :
    h.in_valid_range j = true ∧ j < h.events.length ∧
      ∃ t, h.events[j]? = some (.active t) := by
  unfold EventHistory.prev_active_idx at hj
  split at hj
  · cases hj
  · exact find_next_some getId hj

lemma in_valid_range_congr {h1 h2 : EventHistory T ID}
    (hlen : h1.events.length = h2.events.length)
    (hhs : h1.history_start = h2.history_start)
    (hhd : h1.head = h2.head)
    (hms : h1.max_size = h2.max_size) (i : ℕ) :
    h1.in_valid_range i = h2.in_valid_range i := by
  unfold EventHistory.in_valid_range
  have hemp : h1.events.isEmpty = h2.events.isEmpty := by
    cases he1 : h1.events <;> cases he2 : h2.events <;>
      first
      | rfl
      | (rw [he1, he2] at hlen; simp at hlen)
  rw [hemp, hhs, hhd]

lemma in_valid_range_update (h : EventHistory T ID) (c : ℕ) (E : List (EventStatus T))
    (m : List (ID × List ℕ)) (ig : List ID) (cnt : EventStatusCount)
    (hlen : E.length = h.events.length) (i : ℕ) :
    EventHistory.in_valid_range
      ⟨h.max_size, c, h.head, h.history_start, h.static_history, E, m, ig, cnt⟩ i
      = h.in_valid_range i := by
  apply in_valid_range_congr
  · exact hlen
  · rfl
  · rfl
  · rfl

lemma idSetInsert_nodup {key : ID} {s : List ID} (hs : s.Nodup) :
    (idSetInsert key s).Nodup := by
  unfold idSetInsert
  split
  · exact hs
  · exact List.nodup_cons.mpr ⟨by assumption, hs⟩

lemma inv_forward {h : EventHistory T ID} (hinv : HistInv getId h) :
    HistInv getId (h.forward getId).1 := by
  obtain ⟨hmax, hlen, hsm, hempty, hpos, hstat, hdyn, hsafe, hsound, hcomp, hknd, hvnd, hind⟩ := hinv
  unfold EventHistory.forward
  cases hni : h.next_active_idx getId h.cursor with
  | none => exact ⟨hmax, hlen, hsm, hempty, hpos, hstat, hdyn, hsafe, hsound, hcomp, hknd, hvnd, hind⟩
  | some i =>
    obtain ⟨hv, hlt, t, hev⟩ := next_active_idx_some getId hni
    simp only [hev, EventStatus.get_event, Option.bind]
    refine ⟨hmax, hlen, hsm, ?_, ?_, hstat, hdyn, ?_, hsound, hcomp, hknd, hvnd, ?_⟩
    · intro h0
      simp only at h0
      omega
    · intro hl
      refine ⟨hlt, (hpos (by simpa using hl)).2.1, hv⟩
    · rw [cursorInactiveSafe_iff]
      intro t' ht'
      simp only at ht'
      rw [hev] at ht'
      cases ht'
    · exact idSetInsert_nodup (by simpa using hind)

lemma inv_backward {h : EventHistory T ID} (hinv : HistInv getId h) :
    HistInv getId (h.backward getId).1 := by
  obtain ⟨hmax, hlen, hsm, hempty, hpos, hstat, hdyn, hsafe, hsound, hcomp, hknd, hvnd, hind⟩ := hinv
  unfold EventHistory.backward
  cases hni : h.prev_active_idx getId h.cursor with
  | none => exact ⟨hmax, hlen, hsm, hempty, hpos, hstat, hdyn, hsafe, hsound, hcomp, hknd, hvnd, hind⟩
  | some i =>
    obtain ⟨hv, hlt, t, hev⟩ := prev_active_idx_some getId hni
    simp only [hev, EventStatus.get_event, Option.bind]
    refine ⟨hmax, hlen, hsm, ?_, ?_, hstat, hdyn, ?_, hsound, hcomp, hknd, hvnd, ?_⟩
    · intro h0
      simp only at h0
      omega
    · intro hl
      refine ⟨hlt, (hpos (by simpa using hl)).2.1, hv⟩
    · rw [cursorInactiveSafe_iff]
      intro t' ht'
      simp only at ht'
      rw [hev] at ht'
      cases ht'
    · exact idSetInsert_nodup (by simpa using hind)

lemma mapFind?_mem {m : List (ID × List ℕ)} {key : ID} {v : List ℕ}
    (hf : mapFind? m key = some v) : (key, v) ∈ m := by
  induction m with
  | nil => cases hf
  | cons q rest ih =>
    obtain ⟨k, w⟩ := q
    rw [mapFind?] at hf
    split at hf
    · rename_i hk
      injection hf with hf
      subst hk hf
      exact List.mem_cons_self _ _
    · exact List.mem_cons_of_mem _ (ih hf)

lemma inv_activate {h : EventHistory T ID} {key : ID} (hinv : HistInv getId h) :
    HistInv getId (h.activate key) := by
  obtain ⟨hmax, hlen, hsm, hempty, hpos, hstat, hdyn, hsafe, hsound, hcomp, hknd, hvnd, hind⟩ := hinv
  unfold EventHistory.activate
  cases hf : mapFind? h.event_idx_map key with
  | none => exact ⟨hmax, hlen, hsm, hempty, hpos, hstat, hdyn, hsafe, hsound, hcomp, hknd, hvnd, hind⟩
  | some idxs =>
    simp only []
    have hlenE : (activateFold idxs (h.events, h.event_status_count)).1.length
        = h.events.length := activateFold_length idxs h.events h.event_status_count
    have hget : ∀ i : ℕ, (activateFold idxs (h.events, h.event_status_count)).1[i]?
        = if i ∈ idxs then
            (match h.events[i]? with
             | some (.inactive t) => some (EventStatus.active t)
             | x => x)
          else h.events[i]? := fun i => activateFold_getElem? idxs h.events h.event_status_count i
    have hkeymem : (key, idxs) ∈ h.event_idx_map := mapFind?_mem hf
    have hsound' := (mapSound_iff getId).mp hsound
    have hcomp' := (mapComplete_iff getId).mp hcomp
    have hsafe' := (cursorInactiveSafe_iff getId).mp hsafe
    have hidxsound : ∀ i ∈ idxs, ∃ t,
        (h.events[i]? = some (EventStatus.active t) ∨
         h.events[i]? = some (EventStatus.inactive t)) ∧ getId t = key :=
      fun i hi => hsound' (key, idxs) hkeymem i hi
    have hmapidxs : mapIdxs h.event_idx_map key = idxs := by
      rw [mapIdxs, hf]
      rfl
    refine ⟨hmax, ?_, hsm, ?_, ?_, hstat, ?_, ?_, ?_, ?_, hknd, hvnd, hind⟩
    · show (activateFold idxs (h.events, h.event_status_count)).1.length ≤ h.max_size
      rw [hlenE]
      exact hlen
    · intro h0
      simp only [hlenE] at h0
      exact hempty h0
    · intro hl
      simp only [hlenE] at hl
      obtain ⟨hc, hh, hv⟩ := hpos hl
      refine ⟨by simpa [hlenE] using hc, by simpa [hlenE] using hh, ?_⟩
      rw [in_valid_range_update h h.cursor _ _ _ _ hlenE]
      exact hv
    · intro hsf
      show (activateFold idxs (h.events, h.event_status_count)).1.length = h.max_size
      rw [hlenE]
      exact hdyn hsf
    · -- cursorInactiveSafe
      rw [cursorInactiveSafe_iff]
      intro t ht j u hu
      simp only [hget] at ht hu
      by_cases hcmem : h.cursor ∈ idxs
      · rw [if_pos hcmem] at ht
        obtain ⟨t0, ht0, hid0⟩ := hidxsound _ hcmem
        rcases ht0 with ht0 | ht0 <;> rw [ht0] at ht <;> cases ht
      · rw [if_neg hcmem] at ht
        have htkey : getId t ≠ key := by
          intro hc
          exact hcmem (hmapidxs ▸ hc ▸ hcomp' h.cursor t (Or.inr ht))
        by_cases hjmem : j ∈ idxs
        · rw [if_pos hjmem] at hu
          obtain ⟨u0, hu0, hid0⟩ := hidxsound _ hjmem
          rcases hu0 with hu0 | hu0 <;> rw [hu0] at hu
          · injection hu with hu1
            injection hu1 with hu2
            subst hu2
            exact fun hc => htkey (hc ▸ hid0)
          · injection hu with hu1
            injection hu1 with hu2
            subst hu2
            exact fun hc => htkey (hc ▸ hid0)
        · rw [if_neg hjmem] at hu
          exact hsafe' t ht j u hu
    · -- mapSound
      rw [mapSound_iff]
      intro p hp i hi
      obtain ⟨t, hev, hid⟩ := hsound' p hp i hi
      simp only [hget]
      by_cases him : i ∈ idxs
      · rw [if_pos him]
        rcases hev with hev | hev <;> rw [hev]
        · exact ⟨t, Or.inl rfl, hid⟩
        · exact ⟨t, Or.inl rfl, hid⟩
      · rw [if_neg him]
        exact ⟨t, hev, hid⟩
    · -- mapComplete
      rw [mapComplete_iff]
      intro i t hev'
      simp only [hget] at hev'
      by_cases him : i ∈ idxs
      · rw [if_pos him] at hev'
        cases horig : h.events[i]? with
        | none => rw [horig] at hev'; rcases hev' with hev' | hev' <;> cases hev'
        | some ev =>
          rw [horig] at hev'
          cases ev with
          | active v =>
            rcases hev' with hev' | hev'
            · injection hev' with h1
              injection h1 with h2
              subst h2
              exact hcomp' i _ (Or.inl horig)
            · injection hev' with h1
              cases h1
          | inactive v =>
            rcases hev' with hev' | hev'
            · injection hev' with h1
              injection h1 with h2
              subst h2
              exact hcomp' i _ (Or.inr horig)
            · injection hev' with h1
              cases h1
          | deleted =>
            rcases hev' with hev' | hev' <;>
              (injection hev' with h1; cases h1)
      · rw [if_neg him] at hev'
        exact hcomp' i t hev'

lemma inv_deactivate {h : EventHistory T ID} {key : ID} (hinv : HistInv getId h) :
    HistInv getId (h.deactivate getId key) := by
  obtain ⟨hmax, hlen, hsm, hempty, hpos, hstat, hdyn, hsafe, hsound, hcomp, hknd, hvnd, hind⟩ := hinv
  unfold EventHistory.deactivate
  cases hf : mapFind? h.event_idx_map key with
  | none => exact ⟨hmax, hlen, hsm, hempty, hpos, hstat, hdyn, hsafe, hsound, hcomp, hknd, hvnd, hind⟩
  | some idxs =>
    simp only []
    have hlenE : (deactivateFold idxs (h.events, h.event_status_count)).1.length
        = h.events.length := deactivateFold_length idxs h.events h.event_status_count
    have hget : ∀ i : ℕ, (deactivateFold idxs (h.events, h.event_status_count)).1[i]?
        = if i ∈ idxs then
            (match h.events[i]? with
             | some (.active t) => some (EventStatus.inactive t)
             | x => x)
          else h.events[i]? := fun i => deactivateFold_getElem? idxs h.events h.event_status_count i
    have hkeymem : (key, idxs) ∈ h.event_idx_map := mapFind?_mem hf
    have hsound' := (mapSound_iff getId).mp hsound
    have hcomp' := (mapComplete_iff getId).mp hcomp
    have hsafe' := (cursorInactiveSafe_iff getId).mp hsafe
    have hidxsound : ∀ i ∈ idxs, ∃ t,
        (h.events[i]? = some (EventStatus.active t) ∨
         h.events[i]? = some (EventStatus.inactive t)) ∧ getId t = key :=
      fun i hi => hsound' (key, idxs) hkeymem i hi
    have hmapidxs : mapIdxs h.event_idx_map key = idxs := by
      rw [mapIdxs, hf]
      rfl
    have hact : ∀ (j : ℕ) (u : T),
        (deactivateFold idxs (h.events, h.event_status_count)).1[j]?
            = some (EventStatus.active u) →
        j ∉ idxs ∧ h.events[j]? = some (EventStatus.active u) := by
      intro j u hj
      rw [hget] at hj
      by_cases hjm : j ∈ idxs
      · rw [if_pos hjm] at hj
        exfalso
        cases horig : h.events[j]? with
        | none => rw [horig] at hj; cases hj
        | some ev =>
          rw [horig] at hj
          cases ev with
          | active v => injection hj with h1; cases h1
          | inactive v => injection hj with h1; cases h1
          | deleted => injection hj with h1; cases h1
      · rw [if_neg hjm] at hj
        exact ⟨hjm, hj⟩
    have hsound2 : mapSound getId
        { h with events := (deactivateFold idxs (h.events, h.event_status_count)).1,
                 event_status_count := (deactivateFold idxs (h.events, h.event_status_count)).2 }
        = true := by
      rw [mapSound_iff]
      intro p hp i hi
      obtain ⟨t, hev, hid⟩ := hsound' p hp i hi
      simp only [hget]
      by_cases him : i ∈ idxs
      · rw [if_pos him]
        rcases hev with hev | hev <;> rw [hev]
        · exact ⟨t, Or.inr rfl, hid⟩
        · exact ⟨t, Or.inr rfl, hid⟩
      · rw [if_neg him]
        exact ⟨t, hev, hid⟩
    have hcomp2 : mapComplete getId
        { h with events := (deactivateFold idxs (h.events, h.event_status_count)).1,
                 event_status_count := (deactivateFold idxs (h.events, h.event_status_count)).2 }
        = true := by
      rw [mapComplete_iff]
      intro i t hev'
      simp only [hget] at hev'
      by_cases him : i ∈ idxs
      · rw [if_pos him] at hev'
        cases horig : h.events[i]? with
        | none => rw [horig] at hev'; rcases hev' with hev' | hev' <;> cases hev'
        | some ev =>
          rw [horig] at hev'
          cases ev with
          | active v =>
            rcases hev' with hev' | hev'
            · injection hev' with h1
              cases h1
            · injection hev' with h1
              injection h1 with h2
              subst h2
              exact hcomp' i _ (Or.inl horig)
          | inactive v =>
            rcases hev' with hev' | hev'
            · injection hev' with h1
              cases h1
            · injection hev' with h1
              injection h1 with h2
              subst h2
              exact hcomp' i _ (Or.inr horig)
          | deleted =>
            rcases hev' with hev' | hev' <;>
              (injection hev' with h1; cases h1)
      · rw [if_neg him] at hev'
        exact hcomp' i t hev'
    split
    · rename_i hcmem
      cases hpa : EventHistory.prev_active_idx getId
          { h with events := (deactivateFold idxs (h.events, h.event_status_count)).1,
                   event_status_count := (deactivateFold idxs (h.events, h.event_status_count)).2 }
          h.cursor with
      | some p =>
        obtain ⟨hv, hlt, u, hu⟩ := prev_active_idx_some getId hpa
        refine ⟨hmax, ?_, hsm, ?_, ?_, hstat, ?_, ?_, hsound2, hcomp2, hknd, hvnd, hind⟩
        · show (deactivateFold idxs (h.events, h.event_status_count)).1.length ≤ h.max_size
          rw [hlenE]
          exact hlen
        · intro h0
          simp only [hlenE] at h0
          obtain ⟨hc0, _, _, _⟩ := hempty h0
          exfalso
          rw [hlenE] at hlt
          omega
        · intro hl
          simp only [hlenE] at hl
          obtain ⟨hc, hh, _⟩ := hpos hl
          exact ⟨by simpa [hlenE] using hlt, by simpa [hlenE] using hh, hv⟩
        · intro hsf
          show (deactivateFold idxs (h.events, h.event_status_count)).1.length = h.max_size
          rw [hlenE]
          exact hdyn hsf
        · rw [cursorInactiveSafe_iff]
          intro t ht
          simp only at ht
          rw [hu] at ht
          cases ht
      | none =>
        refine ⟨hmax, ?_, hsm, ?_, ?_, hstat, ?_, ?_, hsound2, hcomp2, hknd, hvnd, hind⟩
        · show (deactivateFold idxs (h.events, h.event_status_count)).1.length ≤ h.max_size
          rw [hlenE]
          exact hlen
        · intro h0
          simp only [hlenE] at h0
          exact hempty h0
        · intro hl
          simp only [hlenE] at hl
          obtain ⟨hc, hh, hv⟩ := hpos hl
          refine ⟨by simpa [hlenE] using hc, by simpa [hlenE] using hh, ?_⟩
          rw [in_valid_range_update h h.cursor _ _ _ _ hlenE]
          exact hv
        · intro hsf
          show (deactivateFold idxs (h.events, h.event_status_count)).1.length = h.max_size
          rw [hlenE]
          exact hdyn hsf
        · -- cursor stays on a newly inactive entry of `key`
          rw [cursorInactiveSafe_iff]
          intro t ht j u hu
          simp only at ht hu
          obtain ⟨hjne, hju⟩ := hact j u hu
          have hidt : getId t = key := by
            obtain ⟨t0, ht0, hid0⟩ := hidxsound _ hcmem
            rw [hget, if_pos hcmem] at ht
            rcases ht0 with ht0 | ht0 <;>
              rw [ht0] at ht <;>
              (injection ht with h1; injection h1 with h2) <;>
              exact h2 ▸ hid0
          intro hc
          apply hjne
          have hju2 := hcomp' j u (Or.inl hju)
          rw [hc, hidt, hmapidxs] at hju2
          exact hju2
    · rename_i hcmem
      refine ⟨hmax, ?_, hsm, ?_, ?_, hstat, ?_, ?_, hsound2, hcomp2, hknd, hvnd, hind⟩
      · show (deactivateFold idxs (h.events, h.event_status_count)).1.length ≤ h.max_size
        rw [hlenE]
        exact hlen
      · intro h0
        simp only [hlenE] at h0
        exact hempty h0
      · intro hl
        simp only [hlenE] at hl
        obtain ⟨hc, hh, hv⟩ := hpos hl
        refine ⟨by simpa [hlenE] using hc, by simpa [hlenE] using hh, ?_⟩
        rw [in_valid_range_update h h.cursor _ _ _ _ hlenE]
        exact hv
      · intro hsf
        show (deactivateFold idxs (h.events, h.event_status_count)).1.length = h.max_size
        rw [hlenE]
        exact hdyn hsf
      · -- cursor entry untouched
        rw [cursorInactiveSafe_iff]
        intro t ht j u hu
        simp only at ht hu
        rw [hget, if_neg hcmem] at ht
        obtain ⟨hjne, hju⟩ := hact j u hu
        exact hsafe' t ht j u hju

lemma inv_remove {h : EventHistory T ID} {key : ID} (hinv : HistInv getId h) :
    HistInv getId (h.remove getId key) := by
  obtain ⟨hmax, hlen, hsm, hempty, hpos, hstat, hdyn, hsafe, hsound, hcomp, hknd, hvnd, hind⟩ := hinv
  unfold EventHistory.remove
  rcases hmk : mapRemoveKey h.event_idx_map key with ⟨o, m'⟩
  have hfst : o = mapFind? h.event_idx_map key := by
    have := (show (mapRemoveKey h.event_idx_map key).1 = mapFind? h.event_idx_map key from mapRemoveKey_fst)
    rw [hmk] at this
    exact this
  cases o with
  | none => exact ⟨hmax, hlen, hsm, hempty, hpos, hstat, hdyn, hsafe, hsound, hcomp, hknd, hvnd, hind⟩
  | some idxs =>
    simp only []
    have hf : mapFind? h.event_idx_map key = some idxs := hfst.symm
    have hm' : m' = (mapRemoveKey h.event_idx_map key).2 := by rw [hmk]
    have hlenE : (markDeletedFold idxs (h.events, h.event_status_count)).1.length
        = h.events.length := markDeletedFold_length idxs h.events h.event_status_count
    have hget : ∀ i : ℕ, (markDeletedFold idxs (h.events, h.event_status_count)).1[i]?
        = if i ∈ idxs then h.events[i]?.map (fun _ => EventStatus.deleted) else h.events[i]? :=
      fun i => markDeletedFold_getElem? idxs h.events h.event_status_count i
    have hkeymem : (key, idxs) ∈ h.event_idx_map := mapFind?_mem hf
    have hsound' := (mapSound_iff getId).mp hsound
    have hcomp' := (mapComplete_iff getId).mp hcomp
    have hsafe' := (cursorInactiveSafe_iff getId).mp hsafe
    have hmapidxs : mapIdxs h.event_idx_map key = idxs := by
      rw [mapIdxs, hf]
      rfl
    have hkeysnd : (m'.map Prod.fst).Nodup := by
      rw [hm']
      exact List.Nodup.sublist mapRemoveKey_keys_sublist hknd
    have hvnd2 : ∀ p ∈ m', p.2.Nodup := by
      intro p hp
      rw [hm'] at hp
      exact hvnd p (mapRemoveKey_mem hp)
    have hkeynotin : ∀ p ∈ m', p.1 ≠ key := by
      intro p hp hc
      have hnone : mapFind? m' key = none := by
        rw [hm']
        exact mapRemoveKey_find_self hknd
      rw [mapFind?_none_iff] at hnone
      exact hnone (hc ▸ List.mem_map_of_mem Prod.fst hp)
    have hact : ∀ (j : ℕ) (u : T),
        (markDeletedFold idxs (h.events, h.event_status_count)).1[j]?
            = some (EventStatus.active u) →
        j ∉ idxs ∧ h.events[j]? = some (EventStatus.active u) := by
      intro j u hj
      rw [hget] at hj
      by_cases hjm : j ∈ idxs
      · rw [if_pos hjm] at hj
        exfalso
        cases horig : h.events[j]? with
        | none => rw [horig] at hj; cases hj
        | some ev => rw [horig] at hj; injection hj with h1; cases h1
      · rw [if_neg hjm] at hj
        exact ⟨hjm, hj⟩
    have hnondel : ∀ (j : ℕ) (u : T),
        ((markDeletedFold idxs (h.events, h.event_status_count)).1[j]?
            = some (EventStatus.active u) ∨
         (markDeletedFold idxs (h.events, h.event_status_count)).1[j]?
            = some (EventStatus.inactive u)) →
        j ∉ idxs ∧ (h.events[j]? = some (EventStatus.active u) ∨
                    h.events[j]? = some (EventStatus.inactive u)) := by
      intro j u hj
      by_cases hjm : j ∈ idxs
      · exfalso
        rcases hj with hj | hj <;> rw [hget, if_pos hjm] at hj <;>
          (cases horig : h.events[j]? with
           | none => rw [horig] at hj; cases hj
           | some ev => rw [horig] at hj; injection hj with h1; cases h1)
      · rcases hj with hj | hj <;> rw [hget, if_neg hjm] at hj
        · exact ⟨hjm, Or.inl hj⟩
        · exact ⟨hjm, Or.inr hj⟩
    have hsound2 : mapSound getId
        { h with event_idx_map := m',
                 events := (markDeletedFold idxs (h.events, h.event_status_count)).1,
                 event_status_count := (markDeletedFold idxs (h.events, h.event_status_count)).2 }
        = true := by
      rw [mapSound_iff]
      intro p hp i hi
      simp only at hp hi
      have hp2 : p ∈ h.event_idx_map := mapRemoveKey_mem (show p ∈ (mapRemoveKey h.event_idx_map key).2 by rw [← hm']; exact hp)
      obtain ⟨t, hev, hid⟩ := hsound' p hp2 i hi
      have hinot : i ∉ idxs := by
        intro hiin
        obtain ⟨t0, ht0, hid0⟩ := hsound' (key, idxs) hkeymem i hiin
        have hteq : t = t0 := by
          rcases hev with hev | hev <;> rcases ht0 with ht0 | ht0 <;>
            rw [hev] at ht0 <;> injection ht0 with h1 <;>
            cases h1 <;> rfl
        exact hkeynotin p hp (by rw [← hid, hteq, hid0])
      simp only [hget, if_neg hinot]
      exact ⟨t, hev, hid⟩
    have hcomp2 : mapComplete getId
        { h with event_idx_map := m',
                 events := (markDeletedFold idxs (h.events, h.event_status_count)).1,
                 event_status_count := (markDeletedFold idxs (h.events, h.event_status_count)).2 }
        = true := by
      rw [mapComplete_iff]
      intro i t hev'
      obtain ⟨hinot, hev⟩ := hnondel i t (by
        rcases hev' with hev' | hev'
        · exact Or.inl hev'
        · exact Or.inr hev')
      have hold := hcomp' i t hev
      have htkey : getId t ≠ key := by
        intro hc
        rw [hc, hmapidxs] at hold
        exact hinot hold
      show i ∈ mapIdxs m' (getId t)
      rw [show mapIdxs m' (getId t) = mapIdxs h.event_idx_map (getId t) from by
        unfold mapIdxs
        rw [hm', mapRemoveKey_find_ne htkey]]
      exact hold
    split
    · rename_i hcmem
      cases hpa : EventHistory.prev_active_idx getId
          { h with event_idx_map := m',
                   events := (markDeletedFold idxs (h.events, h.event_status_count)).1,
                   event_status_count := (markDeletedFold idxs (h.events, h.event_status_count)).2 }
          h.cursor with
      | some p =>
        obtain ⟨hv, hlt, u, hu⟩ := prev_active_idx_some getId hpa
        refine ⟨hmax, ?_, hsm, ?_, ?_, hstat, ?_, ?_, hsound2, hcomp2, hkeysnd, hvnd2, hind⟩
        · show (markDeletedFold idxs (h.events, h.event_status_count)).1.length ≤ h.max_size
          rw [hlenE]
          exact hlen
        · intro h0
          simp only [hlenE] at h0
          exfalso
          rw [hlenE] at hlt
          omega
        · intro hl
          simp only [hlenE] at hl
          obtain ⟨hc, hh, _⟩ := hpos hl
          exact ⟨by simpa [hlenE] using hlt, by simpa [hlenE] using hh, hv⟩
        · intro hsf
          show (markDeletedFold idxs (h.events, h.event_status_count)).1.length = h.max_size
          rw [hlenE]
          exact hdyn hsf
        · rw [cursorInactiveSafe_iff]
          intro t ht
          simp only at ht
          rw [hu] at ht
          cases ht
      | none =>
        refine ⟨hmax, ?_, hsm, ?_, ?_, hstat, ?_, ?_, hsound2, hcomp2, hkeysnd, hvnd2, hind⟩
        · show (markDeletedFold idxs (h.events, h.event_status_count)).1.length ≤ h.max_size
          rw [hlenE]
          exact hlen
        · intro h0
          simp only [hlenE] at h0
          exact hempty h0
        · intro hl
          simp only [hlenE] at hl
          obtain ⟨hc, hh, hv⟩ := hpos hl
          refine ⟨by simpa [hlenE] using hc, by simpa [hlenE] using hh, ?_⟩
          rw [in_valid_range_update h h.cursor _ _ _ _ hlenE]
          exact hv
        · intro hsf
          show (markDeletedFold idxs (h.events, h.event_status_count)).1.length = h.max_size
          rw [hlenE]
          exact hdyn hsf
        · -- cursor stays on a tombstoned slot
          rw [cursorInactiveSafe_iff]
          intro t ht
          exfalso
          simp only [hget, if_pos hcmem] at ht
          cases horig : h.events[h.cursor]? with
          | none => rw [horig] at ht; cases ht
          | some ev => rw [horig] at ht; injection ht with h1; cases h1
    · rename_i hcmem
      refine ⟨hmax, ?_, hsm, ?_, ?_, hstat, ?_, ?_, hsound2, hcomp2, hkeysnd, hvnd2, hind⟩
      · show (markDeletedFold idxs (h.events, h.event_status_count)).1.length ≤ h.max_size
        rw [hlenE]
        exact hlen
      · intro h0
        simp only [hlenE] at h0
        exact hempty h0
      · intro hl
        simp only [hlenE] at hl
        obtain ⟨hc, hh, hv⟩ := hpos hl
        refine ⟨by simpa [hlenE] using hc, by simpa [hlenE] using hh, ?_⟩
        rw [in_valid_range_update h h.cursor _ _ _ _ hlenE]
        exact hv
      · intro hsf
        show (markDeletedFold idxs (h.events, h.event_status_count)).1.length = h.max_size
        rw [hlenE]
        exact hdyn hsf
      · rw [cursorInactiveSafe_iff]
        intro t ht j u hu
        simp only at ht hu
        rw [hget, if_neg hcmem] at ht
        obtain ⟨hjne, hju⟩ := hact j u hu
        exact hsafe' t ht j u hju

lemma mapFind?_of_mem {m : List (ID × List ℕ)} {p : ID × List ℕ}
    (hknd : (m.map Prod.fst).Nodup) (hp : p ∈ m) :
    mapFind? m p.1 = some p.2 := by
  induction m with
  | nil => cases hp
  | cons q rest ih =>
    obtain ⟨k, v⟩ := q
    rw [List.map_cons, List.nodup_cons] at hknd
    rcases List.mem_cons.mp hp with rfl | h2
    · exact mapFind?_cons_self
    · by_cases hk : k = p.1
      · exfalso
        apply hknd.1
        have hmm : p.1 ∈ rest.map Prod.fst := List.mem_map_of_mem Prod.fst h2
        rw [hk]
        exact hmm
      · rw [mapFind?_cons_ne hk]
        exact ih hknd.2 h2

lemma mapSound_keyed {h : EventHistory T ID} (hknd : (h.event_idx_map.map Prod.fst).Nodup) :
    mapSound getId h = true ↔
      ∀ (key : ID) (i : ℕ), i ∈ mapIdxs h.event_idx_map key →
        ∃ t, (h.events[i]? = some (EventStatus.active t) ∨
              h.events[i]? = some (EventStatus.inactive t)) ∧ getId t = key := by
  rw [mapSound_iff]
  constructor
  · intro hall key i hi
    rw [mapIdxs] at hi
    cases hf : mapFind? h.event_idx_map key with
    | none => rw [hf] at hi; cases hi
    | some idxs =>
      rw [hf] at hi
      exact hall (key, idxs) (mapFind?_mem hf) i hi
  · intro hall p hp i hi
    apply hall p.1 i
    rw [mapIdxs, mapFind?_of_mem hknd hp]
    exact hi

lemma mapIdxs_nodup {m : List (ID × List ℕ)} {key : ID}
    (hvnd : ∀ p ∈ m, p.2.Nodup) : (mapIdxs m key).Nodup := by
  rw [mapIdxs]
  cases hf : mapFind? m key with
  | none => simp
  | some v => exact hvnd (key, v) (mapFind?_mem hf)

lemma inv_add_assemble (h : EventHistory T ID) (item : T) (insert_idx hs' : ℕ)
    (st' : Bool) (cnt : EventStatusCount)
    (hinv : HistInv getId h)
    (hil : insert_idx ≤ h.events.length)
    (hia : insert_idx < h.max_size)
    (hsm' : hs' < h.max_size)
    (hstat' : st' = true → hs' = 0)
    (hdyn' : st' = false →
      (if insert_idx = h.events.length then h.events.length + 1 else h.events.length)
        = h.max_size) :
    HistInv getId
      ⟨h.max_size, insert_idx, insert_idx, hs', st',
       (if insert_idx = h.events.length then h.events ++ [EventStatus.active item]
        else h.events.set insert_idx (EventStatus.active item)),
       mapInsertIdx
         (match (h.events[insert_idx]?.bind EventStatus.get_event).map getId with
          | some pid => mapRemoveIdx h.event_idx_map pid insert_idx
          | none => h.event_idx_map)
         (getId item) insert_idx,
       h.ignored_events, cnt⟩ := by
  obtain ⟨hmax, hlen, hsm, hempty, hpos, hstat, hdyn, hsafe, hsound, hcomp, hknd, hvnd, hind⟩ := hinv
  have hsoundk := (mapSound_keyed getId hknd).mp hsound
  have hcomp' := (mapComplete_iff getId).mp hcomp
  -- the new event array
  have hlen' : (if insert_idx = h.events.length then h.events ++ [EventStatus.active item]
      else h.events.set insert_idx (EventStatus.active item)).length
      = if insert_idx = h.events.length then h.events.length + 1 else h.events.length := by
    split
    · simp
    · simp
  have hget_ins : (if insert_idx = h.events.length then h.events ++ [EventStatus.active item]
      else h.events.set insert_idx (EventStatus.active item))[insert_idx]?
      = some (EventStatus.active item) := by
    split
    · rename_i hpush
      rw [hpush]
      exact List.getElem?_concat_length _ _
    · rename_i hset
      exact List.getElem?_set_self (by omega)
  have hget_ne : ∀ j : ℕ, j ≠ insert_idx →
      (if insert_idx = h.events.length then h.events ++ [EventStatus.active item]
       else h.events.set insert_idx (EventStatus.active item))[j]?
      = h.events[j]? := by
    intro j hj
    split
    · rename_i hpush
      rw [List.getElem?_append]
      split
      · rfl
      · rename_i hjl
        have h1 : ([EventStatus.active item] : List (EventStatus T))[j - h.events.length]? = none :=
          List.getElem?_eq_none (by simp only [List.length_singleton]; omega)
        have h2 : h.events[j]? = none := List.getElem?_eq_none (by omega)
        rw [h1, h2]
    · exact List.getElem?_set_ne (fun hc => hj hc.symm)
  -- the new index map
  have hm1find : ∀ key' : ID,
      mapIdxs (match (h.events[insert_idx]?.bind EventStatus.get_event).map getId with
               | some pid => mapRemoveIdx h.event_idx_map pid insert_idx
               | none => h.event_idx_map) key'
      = if (h.events[insert_idx]?.bind EventStatus.get_event).map getId = some key'
        then (mapIdxs h.event_idx_map key').erase insert_idx
        else mapIdxs h.event_idx_map key' := by
    intro key'
    cases hprev : (h.events[insert_idx]?.bind EventStatus.get_event).map getId with
    | none => simp
    | some pid =>
      simp only []
      by_cases hkp : pid = key'
      · subst hkp
        rw [if_pos rfl]
        exact mapRemoveIdx_find_self hknd
      · rw [if_neg (by intro hc; injection hc with hc; exact hkp hc)]
        rw [mapIdxs, mapRemoveIdx_find_ne (fun hc => hkp hc.symm)]
        rfl
  have hm1iff : ∀ (key' : ID) (j : ℕ), j ≠ insert_idx →
      (j ∈ mapIdxs (match (h.events[insert_idx]?.bind EventStatus.get_event).map getId with
                    | some pid => mapRemoveIdx h.event_idx_map pid insert_idx
                    | none => h.event_idx_map) key'
       ↔ j ∈ mapIdxs h.event_idx_map key') := by
    intro key' j hj
    rw [hm1find]
    split
    · constructor
      · exact fun hm => List.mem_of_mem_erase hm
      · exact fun hm => (List.mem_erase_of_ne hj).mpr hm
    · exact Iff.rfl
  have hm1notins : ∀ key' : ID,
      insert_idx ∉ mapIdxs (match (h.events[insert_idx]?.bind EventStatus.get_event).map getId with
                            | some pid => mapRemoveIdx h.event_idx_map pid insert_idx
                            | none => h.event_idx_map) key' := by
    intro key' hmem
    rw [hm1find] at hmem
    split at hmem
    · exact (mapIdxs_nodup hvnd).not_mem_erase hmem
    · rename_i hprev
      obtain ⟨t, hev, hid⟩ := hsoundk key' insert_idx hmem
      apply hprev
      rcases hev with hev | hev <;> rw [hev] <;> simp [EventStatus.get_event, hid]
  have hm1knd : ((match (h.events[insert_idx]?.bind EventStatus.get_event).map getId with
                  | some pid => mapRemoveIdx h.event_idx_map pid insert_idx
                  | none => h.event_idx_map).map Prod.fst).Nodup := by
    cases hprev : (h.events[insert_idx]?.bind EventStatus.get_event).map getId with
    | none => exact hknd
    | some pid => exact List.Nodup.sublist mapRemoveIdx_keys_sublist hknd
  have hm1vnd : ∀ p ∈ (match (h.events[insert_idx]?.bind EventStatus.get_event).map getId with
                       | some pid => mapRemoveIdx h.event_idx_map pid insert_idx
                       | none => h.event_idx_map), p.2.Nodup := by
    cases hprev : (h.events[insert_idx]?.bind EventStatus.get_event).map getId with
    | none => exact hvnd
    | some pid => exact mapRemoveIdx_values_nodup hvnd
  refine ⟨hmax, ?_, hsm', ?_, ?_, hstat', ?_, ?_, ?_, ?_, ?_, ?_, hind⟩
  · -- length ≤ max
    show (if insert_idx = h.events.length then h.events ++ [EventStatus.active item]
          else h.events.set insert_idx (EventStatus.active item)).length ≤ h.max_size
    rw [hlen']
    split <;> omega
  · -- empty case vacuous
    intro h0
    simp only [hlen'] at h0
    exfalso
    split at h0 <;> omega
  · -- cursor/head bounds and validity
    intro hl
    refine ⟨?_, ?_, ?_⟩
    · simp only [hlen']
      split <;> omega
    · simp only [hlen']
      split <;> omega
    · apply valid_head
      simp only [hlen']
      split <;> omega
  · -- dynamic history implies a full buffer
    intro hsf
    show (if insert_idx = h.events.length then h.events ++ [EventStatus.active item]
          else h.events.set insert_idx (EventStatus.active item)).length = h.max_size
    rw [hlen']
    exact hdyn' hsf
  · -- cursorInactiveSafe: the cursor sits on the freshly added Active entry
    rw [cursorInactiveSafe_iff]
    intro t ht
    simp only at ht
    rw [hget_ins] at ht
    cases ht
  · -- mapSound
    rw [mapSound_keyed getId (mapInsertIdx_keys_nodup hm1knd)]
    intro key i hi
    simp only at hi ⊢
    by_cases hkey : key = getId item
    · subst hkey
      rw [mapIdxs, mapInsertIdx_find_self] at hi
      simp only [Option.getD_some] at hi
      rcases setInsert_mem.mp hi with rfl | hrest
      · exact ⟨item, Or.inl hget_ins, rfl⟩
      · have hne : i ≠ insert_idx := by
          intro hc
          subst hc
          exact hm1notins _ hrest
        obtain ⟨t, hev, hid⟩ := hsoundk (getId item) i ((hm1iff _ i hne).mp (by
          rw [mapIdxs]
          exact hrest))
        refine ⟨t, ?_, hid⟩
        rw [hget_ne i hne]
        exact hev
    · rw [mapIdxs, mapInsertIdx_find_ne hkey] at hi
      have hi2 : i ∈ mapIdxs (match (h.events[insert_idx]?.bind EventStatus.get_event).map getId with
                              | some pid => mapRemoveIdx h.event_idx_map pid insert_idx
                              | none => h.event_idx_map) key := by
        rw [mapIdxs]
        exact hi
      have hne : i ≠ insert_idx := by
        intro hc
        subst hc
        exact hm1notins _ hi2
      obtain ⟨t, hev, hid⟩ := hsoundk key i ((hm1iff _ i hne).mp hi2)
      refine ⟨t, ?_, hid⟩
      rw [hget_ne i hne]
      exact hev
  · -- mapComplete
    rw [mapComplete_iff]
    intro i t hev'
    simp only at hev' ⊢
    by_cases hne : i = insert_idx
    · subst hne
      rw [hget_ins] at hev'
      have hti : t = item := by
        rcases hev' with hev' | hev' <;> injection hev' with h1
        · injection h1 with h2
          exact h2.symm
        · cases h1
      subst hti
      rw [mapIdxs, mapInsertIdx_find_self]
      simp only [Option.getD_some]
      exact setInsert_mem.mpr (Or.inl rfl)
    · rw [hget_ne i hne] at hev'
      have hold := hcomp' i t hev'
      by_cases hkey : getId t = getId item
      · rw [hkey, mapIdxs, mapInsertIdx_find_self]
        simp only [Option.getD_some]
        apply setInsert_mem.mpr
        right
        rw [show mapIdxs (match (h.events[insert_idx]?.bind EventStatus.get_event).map getId with
                          | some pid => mapRemoveIdx h.event_idx_map pid insert_idx
                          | none => h.event_idx_map) (getId item)
            = _ from rfl]
        apply (hm1iff (getId item) i hne).mpr
        rw [← hkey]
        exact hold
      · rw [mapIdxs, mapInsertIdx_find_ne hkey]
        have := (hm1iff (getId t) i hne).mpr hold
        rw [mapIdxs] at this
        exact this
  · -- keys nodup
    exact mapInsertIdx_keys_nodup hm1knd
  · -- values nodup
    exact mapInsertIdx_values_nodup hm1vnd

lemma inv_add {h : EventHistory T ID} {item : T} (hinv : HistInv getId h) :
    HistInv getId (h.add getId item).1 := by
  obtain ⟨hmax, hlen, hsm, hempty, hpos, hstat, hdyn, hsafe, hsound, hcomp, hknd, hvnd, hind⟩ := hinv
  unfold EventHistory.add
  by_cases hig : getId item ∈ h.ignored_events
  · rw [if_pos hig]
    exact ⟨hmax, hlen, hsm, hempty, hpos, hstat, hdyn, hsafe, hsound, hcomp, hknd, hvnd,
      hind.erase _⟩
  · rw [if_neg hig]
    by_cases hdup : (match h.events[h.cursor]? with
                     | some (.active current) => decide (getId current = getId item)
                     | _ => false) = true
    · rw [if_pos hdup]
      exact ⟨hmax, hlen, hsm, hempty, hpos, hstat, hdyn, hsafe, hsound, hcomp, hknd, hvnd, hind⟩
    · rw [if_neg hdup]
      have hinv2 : HistInv getId h :=
        ⟨hmax, hlen, hsm, hempty, hpos, hstat, hdyn, hsafe, hsound, hcomp, hknd, hvnd, hind⟩
      by_cases hemp : h.events.isEmpty = true
      · -- empty store: insert at index 0
        have hlen0 : h.events.length = 0 := by
          rw [List.isEmpty_iff_length_eq_zero] at hemp
          exact hemp
        obtain ⟨hc0, hh0, hhs0, hst⟩ := hempty hlen0
        rw [if_neg (by rw [hh0, hc0]; simp)]
        simp only [EventHistory.next_idx]
        rw [if_pos hemp]
        rw [if_neg (by intro hc; omega)]
        exact inv_add_assemble getId h item 0 h.history_start h.static_history _ hinv2
          (by omega) hmax (by omega) hstat
          (fun hsf => absurd (hst.symm.trans hsf) (by simp))
      · have hlen0 : 0 < h.events.length := by
          by_contra hc
          push_neg at hc
          exact hemp (List.isEmpty_iff_length_eq_zero.mpr (by omega))
        obtain ⟨hcl, hhl, hcv⟩ := hpos hlen0
        have hia : traverse.next h.cursor h.max_size < h.max_size :=
          traverse.next_lt hmax (by omega)
        have hil : traverse.next h.cursor h.max_size ≤ h.events.length := by
          unfold traverse.next
          split <;> omega
        by_cases hdet : h.head ≠ h.cursor ∧ h.static_history = false
        · rw [if_pos hdet]
          simp only [EventHistory.next_idx]
          rw [if_neg hemp]
          by_cases hfull : h.events.length = h.max_size ∧
              traverse.next h.cursor h.max_size = traverse.next h.head h.max_size
          · rw [if_pos hfull]
            exact inv_add_assemble getId h item (traverse.next h.cursor h.max_size)
              (traverse.next (traverse.next h.head h.max_size) h.max_size) false _ hinv2
              hil hia
              (traverse.next_lt hmax (traverse.next_lt hmax (by omega)))
              (fun hc => absurd hc (by simp))
              (fun _ => by rw [if_neg (by omega)]; exact hfull.1)
          · rw [if_neg hfull]
            exact inv_add_assemble getId h item (traverse.next h.cursor h.max_size)
              (traverse.next h.head h.max_size) h.static_history _ hinv2
              hil hia
              (traverse.next_lt hmax (by omega))
              (fun hsf => absurd (hdet.2.symm.trans hsf) (by simp))
              (fun hsf => by
                have hlm := hdyn hsf
                rw [if_neg (by omega)]
                exact hlm)
        · rw [if_neg hdet]
          simp only [EventHistory.next_idx]
          rw [if_neg hemp]
          by_cases hfull : h.events.length = h.max_size ∧
              traverse.next h.cursor h.max_size = h.history_start
          · rw [if_pos hfull]
            exact inv_add_assemble getId h item (traverse.next h.cursor h.max_size)
              (traverse.next h.history_start h.max_size) false _ hinv2
              hil hia
              (traverse.next_lt hmax hsm)
              (fun hc => absurd hc (by simp))
              (fun _ => by rw [if_neg (by omega)]; exact hfull.1)
          · rw [if_neg hfull]
            exact inv_add_assemble getId h item (traverse.next h.cursor h.max_size)
              h.history_start h.static_history _ hinv2
              hil hia hsm hstat
              (fun hsf => by
                have hlm := hdyn hsf
                rw [if_neg (by omega)]
                exact hlm)

lemma inv_applyOp {h : EventHistory T ID} (hinv : HistInv getId h) (op : Op T ID) :
    HistInv getId (applyOp getId h op) := by
  cases op with
  | add item => exact inv_add getId hinv
  | remove key => exact inv_remove getId hinv
  | deactivate key => exact inv_deactivate getId hinv
  | activate key => exact inv_activate getId hinv
  | forward => exact inv_forward getId hinv
  | backward => exact inv_backward getId hinv

lemma inv_new {c : ℕ} (hc : 0 < c) :
    HistInv getId (EventHistory.new c : EventHistory T ID) := by
  refine ⟨hc, by simp [EventHistory.new], hc, ?_, ?_, ?_, ?_, ?_, ?_, ?_, ?_, ?_, ?_⟩
  · intro _
    exact ⟨rfl, rfl, rfl, rfl⟩
  · intro hl
    simp [EventHistory.new] at hl
  · intro _
    rfl
  · intro hc2
    cases hc2
  · rw [cursorInactiveSafe_iff]
    intro t ht
    simp [EventHistory.new] at ht
  · rfl
  · rfl
  · simp [EventHistory.new]
  · intro p hp
    simp [EventHistory.new] at hp
  · simp [EventHistory.new]

lemma foldl_inv : ∀ (ops : List (Op T ID)) (h : EventHistory T ID), HistInv getId h →
    HistInv getId (ops.foldl (applyOp getId) h) := by
  intro ops
  induction ops with
  | nil => intro h hinv; exact hinv
  | cons op rest ih => intro h hinv; exact ih _ (inv_applyOp getId hinv op)

lemma reachable_inv {c : ℕ} {h : EventHistory T ID} (hr : Reachable getId c h) :
    HistInv getId h := by
  obtain ⟨hc, ops, rfl⟩ := hr
  exact foldl_inv getId ops _ (inv_new getId hc)

lemma add_fst_max {h : EventHistory T ID} {item : T} :
    ((h.add getId item).1).max_size = h.max_size := by
  unfold EventHistory.add
  split
  · rfl
  · split
    · rfl
    · simp only [EventHistory.next_idx]
      split <;> split <;> split <;> rfl

lemma remove_max {h : EventHistory T ID} {key : ID} :
    (h.remove getId key).max_size = h.max_size := by
  unfold EventHistory.remove
  rcases mapRemoveKey h.event_idx_map key with ⟨o, m'⟩
  cases o
  · rfl
  · simp only []
    split
    · split <;> rfl
    · rfl

lemma deactivate_max {h : EventHistory T ID} {key : ID} :
    (h.deactivate getId key).max_size = h.max_size := by
  unfold EventHistory.deactivate
  cases mapFind? h.event_idx_map key
  · rfl
  · simp only []
    split
    · split <;> rfl
    · rfl

lemma activate_max {h : EventHistory T ID} {key : ID} :
    (h.activate key).max_size = h.max_size := by
  unfold EventHistory.activate
  cases mapFind? h.event_idx_map key
  · rfl
  · rfl

lemma forward_fst_max {h : EventHistory T ID} :
    ((h.forward getId).1).max_size = h.max_size := by
  unfold EventHistory.forward
  cases hni : h.next_active_idx getId h.cursor with
  | none => rfl
  | some i =>
    simp only [hni]
    cases hb : h.events[i]?.bind EventStatus.get_event <;> simp only [hb]

lemma backward_fst_max {h : EventHistory T ID} :
    ((h.backward getId).1).max_size = h.max_size := by
  unfold EventHistory.backward
  cases hni : h.prev_active_idx getId h.cursor with
  | none => rfl
  | some i =>
    simp only [hni]
    cases hb : h.events[i]?.bind EventStatus.get_event <;> simp only [hb]

lemma applyOp_max {h : EventHistory T ID} (op : Op T ID) :
    (applyOp getId h op).max_size = h.max_size := by
  cases op with
  | add item => exact add_fst_max getId
  | remove key => exact remove_max getId
  | deactivate key => exact deactivate_max getId
  | activate key => exact activate_max
  | forward => exact forward_fst_max getId
  | backward => exact backward_fst_max getId

lemma runOps_max {c : ℕ} (ops : List (Op T ID)) :
    (runOps getId c ops).max_size = c := by
  unfold runOps
  have hgen : ∀ (l : List (Op T ID)) (h0 : EventHistory T ID),
      (l.foldl (applyOp getId) h0).max_size = h0.max_size := by
    intro l
    induction l with
    | nil => intro h0; rfl
    | cons op rest ih =>
      intro h0
      rw [List.foldl_cons, ih, applyOp_max]
  exact hgen ops _

/-- C1: Navigation contract.  On every reachable history state, `forward()`
equals the spec-side function that scans strictly toward the tail for the
first Active entry whose identifier differs from the Active identifier at the
Cursor (none when the Cursor entry is not Active), skipping Inactive, Deleted
and same-identifier-Active entries, and on success moves the Cursor, inserts
the found identifier into the Ignore-Set and returns the item, while on
failure it returns nothing with the Cursor unchanged; `backward()` equals the
symmetric spec-side scan toward the head of history. -/
theorem c1_navigation_contract {T : Type u} {ID : Type v} [DecidableEq ID] (getId : T → ID)
    {c : ℕ} {h : EventHistory T ID} (hr : Reachable getId c h) :
    h.forward getId = forwardSpecFn getId h ∧ h.backward getId = backwardSpecFn getId h :=
  ⟨forward_eq_spec getId (reachable_inv getId hr),
   backward_eq_spec getId (reachable_inv getId hr)⟩

/-- Witness for C1 at a concrete reachable state with a detached cursor. -/
theorem c1_navigation_contract_witness :
    (runOps natGetId 4 [Op.add 1, Op.add 2, Op.add 3, Op.backward]).forward natGetId
        = forwardSpecFn natGetId (runOps natGetId 4 [Op.add 1, Op.add 2, Op.add 3, Op.backward]) ∧
    (runOps natGetId 4 [Op.add 1, Op.add 2, Op.add 3, Op.backward]).backward natGetId
        = backwardSpecFn natGetId (runOps natGetId 4 [Op.add 1, Op.add 2, Op.add 3, Op.backward]) :=
  c1_navigation_contract natGetId ⟨by decide, [Op.add 1, Op.add 2, Op.add 3, Op.backward], rfl⟩

/-- C2: Bounded capacity.  For every sequence of calls starting from a new
history of positive capacity `c`, the number of stored entries never
exceeds `c`. -/
theorem c2_bounded_capacity {T : Type u} {ID : Type v} [DecidableEq ID] (getId : T → ID)
    {c : ℕ} (hc : 0 < c) (ops : List (Op T ID)) :
    (runOps getId c ops).events.length ≤ c := by
  have hinv := reachable_inv getId ⟨hc, ops, rfl⟩
  have hmax := runOps_max getId (c := c) ops
  have := hinv.2.1
  omega

/-- Witness for C2: a run that overflows the capacity twice. -/
theorem c2_bounded_capacity_witness :
    (runOps natGetId 2 [Op.add 1, Op.add 2, Op.add 3, Op.add 4]).events.length ≤ 2 :=
  c2_bounded_capacity natGetId (by decide) [Op.add 1, Op.add 2, Op.add 3, Op.add 4]

/-- C3: Cursor bound.  After every sequence of calls the cursor lies inside
the stored entry range whenever the store is non-empty. -/
theorem c3_cursor_bound {T : Type u} {ID : Type v} [DecidableEq ID] (getId : T → ID)
    {c : ℕ} (hc : 0 < c) (ops : List (Op T ID))
    (hlen : 0 < (runOps getId c ops).events.length) :
    (runOps getId c ops).cursor < (runOps getId c ops).events.length := by
  have hinv := reachable_inv getId ⟨hc, ops, rfl⟩
  exact (hinv.2.2.2.2.1 hlen).1

/-- Witness for C3 after a wrap-around and navigation. -/
theorem c3_cursor_bound_witness :
    (runOps natGetId 3 [Op.add 1, Op.add 2, Op.add 3, Op.add 4, Op.backward]).cursor
      < (runOps natGetId 3 [Op.add 1, Op.add 2, Op.add 3, Op.add 4, Op.backward]).events.length :=
  c3_cursor_bound natGetId (by decide) [Op.add 1, Op.add 2, Op.add 3, Op.add 4, Op.backward]
    (by decide)

/-- C7: Echo swallowing.  When the added item's identifier is in the
Ignore-Set, `add` removes it from the set and returns nothing, leaving the
entry sequence, cursor and length unchanged; the identifier is then no longer
in the set (exactly one re-add is swallowed), and an add whose identifier is
not in the Ignore-Set never consumes or changes the Ignore-Set. -/
theorem c7_echo_swallowing {T : Type u} {ID : Type v} [DecidableEq ID] (getId : T → ID)
    {c : ℕ} {h : EventHistory T ID} (hr : Reachable getId c h) (item : T)
    (hig : getId item ∈ h.ignored_events) :
    h.add getId item
        = ({ h with ignored_events := h.ignored_events.erase (getId item) }, none) ∧
    getId item ∉ (h.add getId item).1.ignored_events ∧
    (∀ h2 : EventHistory T ID, getId item ∉ h2.ignored_events →
      (h2.add getId item).1.ignored_events = h2.ignored_events) := by
  have hinv := reachable_inv getId hr
  have heq : h.add getId item
      = ({ h with ignored_events := h.ignored_events.erase (getId item) }, none) := by
    unfold EventHistory.add
    rw [if_pos hig]
  refine ⟨heq, ?_, ?_⟩
  · rw [heq]
    exact hinv.2.2.2.2.2.2.2.2.2.2.2.2.not_mem_erase
  · intro h2 hig2
    unfold EventHistory.add
    rw [if_neg hig2]
    split
    · rfl
    · simp only [EventHistory.next_idx]
      split <;> split <;> split <;> rfl

/-- Witness for C7: after `backward()` puts 2 into the Ignore-Set, re-adding 2
is swallowed exactly once. -/
theorem c7_echo_swallowing_witness :
    (let h := runOps natGetId 4 [Op.add 1, Op.add 2, Op.add 3, Op.backward];
     h.add natGetId 2
        = ({ h with ignored_events := h.ignored_events.erase 2 }, none) ∧
     (2 : ℕ) ∉ (h.add natGetId 2).1.ignored_events ∧
     (∀ h2 : EventHistory ℕ ℕ, (2 : ℕ) ∉ h2.ignored_events →
       (h2.add natGetId 2).1.ignored_events = h2.ignored_events)) :=
  c7_echo_swallowing natGetId
    ⟨by decide, [Op.add 1, Op.add 2, Op.add 3, Op.backward], rfl⟩ 2 (by decide)

/-- C8: Immediate-repeat suppression.  When the entry physically at the
Cursor is Active with the same identifier as the added item and that
identifier is not in the Ignore-Set, `add` returns nothing and leaves the
whole history unchanged; the comparison is made only against the entry at the
Cursor slot. -/
theorem c8_immediate_repeat {T : Type u} {ID : Type v} [DecidableEq ID] (getId : T → ID)
    (h : EventHistory T ID) (item t : T)
    (hig : getId item ∉ h.ignored_events)
    (hcur : h.events[h.cursor]? = some (EventStatus.active t))
    (hid : getId t = getId item) :
    h.add getId item = (h, none) := by
  unfold EventHistory.add
  rw [if_neg hig, if_pos (by rw [hcur]; simpa using hid)]

/-- Witness for C8: immediately re-adding the item at the cursor is a no-op. -/
theorem c8_immediate_repeat_witness :
    (runOps natGetId 4 [Op.add 1, Op.add 2]).add natGetId 2
      = (runOps natGetId 4 [Op.add 1, Op.add 2], none) :=
  c8_immediate_repeat natGetId (runOps natGetId 4 [Op.add 1, Op.add 2]) 2 2
    (by decide) (by decide) (by decide)

/-- C10: Navigation frame.  Whenever `forward()` or `backward()` returns an
item, the call changes nothing but the cursor and the Ignore-Set: the stored
entries, their count, the head position, the history-start bound, the
capacity, the index map and the status counters are unchanged. -/
theorem c10_navigation_frame {T : Type u} {ID : Type v} [DecidableEq ID] (getId : T → ID)
    (h : EventHistory T ID) {h' : EventHistory T ID} {t : T}
    (hnav : h.forward getId = (h', some t) ∨ h.backward getId = (h', some t)) :
    h'.events = h.events ∧ h'.events.length = h.events.length ∧ h'.head = h.head ∧
    h'.history_start = h.history_start ∧ h'.max_size = h.max_size ∧
    h'.static_history = h.static_history ∧ h'.event_idx_map = h.event_idx_map ∧
    h'.event_status_count = h.event_status_count := by
  rcases hnav with hnav | hnav
  · unfold EventHistory.forward at hnav
    cases hni : h.next_active_idx getId h.cursor with
    | none =>
      rw [hni] at hnav
      injection hnav with _ h2
      cases h2
    | some i =>
      rw [hni] at hnav
      simp only [] at hnav
      cases hb : h.events[i]?.bind EventStatus.get_event with
      | none =>
        rw [hb] at hnav
        injection hnav with _ h2
        cases h2
      | some ev =>
        rw [hb] at hnav
        injection hnav with h1 _
        rw [← h1]
        exact ⟨rfl, rfl, rfl, rfl, rfl, rfl, rfl, rfl⟩
  · unfold EventHistory.backward at hnav
    cases hni : h.prev_active_idx getId h.cursor with
    | none =>
      rw [hni] at hnav
      injection hnav with _ h2
      cases h2
    | some i =>
      rw [hni] at hnav
      simp only [] at hnav
      cases hb : h.events[i]?.bind EventStatus.get_event with
      | none =>
        rw [hb] at hnav
        injection hnav with _ h2
        cases h2
      | some ev =>
        rw [hb] at hnav
        injection hnav with h1 _
        rw [← h1]
        exact ⟨rfl, rfl, rfl, rfl, rfl, rfl, rfl, rfl⟩

/-- Witness for C10 on a successful `backward()` call. -/
theorem c10_navigation_frame_witness :
    (let h := runOps natGetId 4 [Op.add 1, Op.add 2, Op.add 3];
     let h' := (h.backward natGetId).1;
     h'.events = h.events ∧ h'.events.length = h.events.length ∧ h'.head = h.head ∧
     h'.history_start = h.history_start ∧ h'.max_size = h.max_size ∧
     h'.static_history = h.static_history ∧ h'.event_idx_map = h.event_idx_map ∧
     h'.event_status_count = h.event_status_count) :=
  c10_navigation_frame natGetId (runOps natGetId 4 [Op.add 1, Op.add 2, Op.add 3])
    (Or.inr (show (runOps natGetId 4 [Op.add 1, Op.add 2, Op.add 3]).backward natGetId
        = (((runOps natGetId 4 [Op.add 1, Op.add 2, Op.add 3]).backward natGetId).1, some 2)
      from by decide))

lemma remove_find_none {h : EventHistory T ID} {key : ID}
    (hknd : (h.event_idx_map.map Prod.fst).Nodup) :
    mapFind? (h.remove getId key).event_idx_map key = none := by
  unfold EventHistory.remove
  rcases hmk : mapRemoveKey h.event_idx_map key with ⟨o, m'⟩
  have hm' : m' = (mapRemoveKey h.event_idx_map key).2 := by rw [hmk]
  cases o with
  | none =>
    have hfst : (none : Option (List ℕ)) = mapFind? h.event_idx_map key := by
      have := (show (mapRemoveKey h.event_idx_map key).1 = mapFind? h.event_idx_map key from mapRemoveKey_fst)
      rw [hmk] at this
      exact this
    exact hfst.symm
  | some idxs =>
    simp only []
    have hfind : mapFind? m' key = none := by
      rw [hm']
      exact mapRemoveKey_find_self hknd
    split
    · split
      · exact hfind
      · exact hfind
    · exact hfind

lemma remove_marks_deleted {h : EventHistory T ID} {key : ID} {i : ℕ}
    (hsound : mapSound getId h = true)
    (hi : i ∈ mapIdxs h.event_idx_map key) :
    (h.remove getId key).events[i]? = some EventStatus.deleted := by
  unfold EventHistory.remove
  rcases hmk : mapRemoveKey h.event_idx_map key with ⟨o, m'⟩
  have hfst : o = mapFind? h.event_idx_map key := by
    have := (show (mapRemoveKey h.event_idx_map key).1 = mapFind? h.event_idx_map key from mapRemoveKey_fst)
    rw [hmk] at this
    exact this
  cases o with
  | none =>
    rw [mapIdxs, ← hfst] at hi
    cases hi
  | some idxs =>
    have hidxs : mapIdxs h.event_idx_map key = idxs := by
      rw [mapIdxs, ← hfst]
      rfl
    rw [hidxs] at hi
    obtain ⟨t, hev, _⟩ := ((mapSound_iff getId).mp hsound) (key, idxs)
      (mapFind?_mem hfst.symm) i hi
    have hdel : (markDeletedFold idxs (h.events, h.event_status_count)).1[i]?
        = some EventStatus.deleted := by
      rw [markDeletedFold_getElem?, if_pos hi]
      rcases hev with hev | hev <;> rw [hev] <;> rfl
    simp only []
    split
    · split
      · exact hdel
      · exact hdel
    · exact hdel

/-- C9: Unreachable illegal transition.  On every reachable state, every
index recorded in the identifier-to-indices map refers to an Active or
Inactive entry carrying that identifier (never a Deleted one), so the
`deactivate`/`activate` scan never meets the Deleted entry that would make
the source panic; and after `remove(key)` the key is gone from the map, so a
following `activate(key)` is a no-op and the removed entries stay Deleted
permanently. -/
theorem c9_no_illegal_transition {T : Type u} {ID : Type v} [DecidableEq ID] (getId : T → ID)
    {c : ℕ} {h : EventHistory T ID} (hr : Reachable getId c h) (key : ID) :
    (∀ i ∈ mapIdxs h.event_idx_map key, ∃ t,
        (h.events[i]? = some (EventStatus.active t) ∨
         h.events[i]? = some (EventStatus.inactive t)) ∧ getId t = key) ∧
    toggleHitsDeleted h key = false ∧
    (∀ i ∈ mapIdxs h.event_idx_map key,
      ((h.remove getId key).activate key).events[i]? = some EventStatus.deleted) := by
  have hinv := reachable_inv getId hr
  obtain ⟨hmax, hlen, hsm, hempty, hpos, hstat, hdyn, hsafe, hsound, hcomp, hknd, hvnd, hind⟩ := hinv
  have hsoundk := (mapSound_keyed getId hknd).mp hsound
  refine ⟨fun i hi => hsoundk key i hi, ?_, ?_⟩
  · unfold toggleHitsDeleted
    cases hf : mapFind? h.event_idx_map key with
    | none => rfl
    | some idxs =>
      simp only []
      rw [List.any_eq_false]
      intro i hi
      obtain ⟨t, hev, _⟩ := hsoundk key i (by rw [mapIdxs, hf]; exact hi)
      rcases hev with hev | hev <;> rw [hev] <;> simp
  · intro i hi
    have hact : (h.remove getId key).activate key = h.remove getId key := by
      unfold EventHistory.activate
      rw [remove_find_none getId hknd]
    rw [hact]
    exact remove_marks_deleted getId hsound hi

/-- Witness for C9 at a state holding Active, Inactive and removed entries. -/
theorem c9_no_illegal_transition_witness :
    (let h := runOps natGetId 5 [Op.add 1, Op.add 2, Op.add 1, Op.add 3, Op.deactivate 1];
     (∀ i ∈ mapIdxs h.event_idx_map 1, ∃ t,
        (h.events[i]? = some (EventStatus.active t) ∨
         h.events[i]? = some (EventStatus.inactive t)) ∧ natGetId t = 1) ∧
     toggleHitsDeleted h 1 = false ∧
     (∀ i ∈ mapIdxs h.event_idx_map 1,
       ((h.remove natGetId 1).activate 1).events[i]? = some EventStatus.deleted)) :=
  c9_no_illegal_transition natGetId
    ⟨by decide, [Op.add 1, Op.add 2, Op.add 1, Op.add 3, Op.deactivate 1], rfl⟩ 1

lemma ringDist_eq_zero {max_size a b : ℕ} (ha : a < max_size) :
    ringDist max_size a b = 0 ↔ a = b := by
  unfold ringDist
  split <;> omega

lemma ringDist_lt {max_size a b : ℕ} (ha : a < max_size) (hb : b < max_size) :
    ringDist max_size a b < max_size := by
  unfold ringDist
  split <;> omega

lemma ringDist_next {max_size a b : ℕ} (hmax : 1 < max_size) (ha : a < max_size)
    (hb : b < max_size) (hne : b ≠ a) :
    ringDist max_size a b = ringDist max_size (traverse.next a max_size) b + 1 := by
  unfold ringDist traverse.next
  split <;> split <;> split <;> omega

lemma ringPath_map_next {nf : ℕ → ℕ → ℕ} {max_size : ℕ}
    (hcl : ∀ x, x < max_size → nf x max_size < max_size)
    (hinj : ∀ x y, x < max_size → y < max_size → nf x max_size = nf y max_size → x = y)
    (B : ℕ) (hB : B < max_size) :
    ∀ fuel a, a < max_size →
      ringPath nf max_size (nf B max_size) fuel (nf a max_size)
        = (ringPath nf max_size B fuel a).map (fun x => nf x max_size) := by
  intro fuel
  induction fuel with
  | zero => intro a _; rfl
  | succ fuel ih =>
    intro a ha
    rw [ringPath, ringPath]
    by_cases hj : nf a max_size = B
    · rw [if_pos (show nf (nf a max_size) max_size = nf B max_size by rw [hj]),
        if_pos hj, List.map_cons, List.map_nil]
    · rw [if_neg (fun hc => hj (hinj _ _ (hcl a ha) hB hc)), if_neg hj,
        List.map_cons]
      rw [ih (nf a max_size) (hcl a ha)]

lemma ringPath_chain_next {max_size : ℕ} (hmax : 1 < max_size) (B : ℕ) (hB : B < max_size) :
    ∀ fuel a, a < max_size → a ≠ B → ringDist max_size a B ≤ fuel →
      (a :: ringPath traverse.next max_size B fuel a).map
          (fun x => traverse.next x max_size)
        = ringPath traverse.next max_size B fuel a ++ [traverse.next B max_size] := by
  intro fuel
  induction fuel with
  | zero =>
    intro a ha hne hd
    exfalso
    have := (ringDist_eq_zero (b := B) ha).mp (by omega)
    exact hne this
  | succ fuel ih =>
    intro a ha hne hd
    rw [ringPath]
    by_cases hj : traverse.next a max_size = B
    · rw [if_pos hj, List.map_cons, List.map_cons, List.map_nil, hj]
      rfl
    · rw [if_neg hj]
      have hstep := ringDist_next (a := a) (b := B) hmax ha hB (fun hc => hne hc.symm)
      have hlt := traverse.next_lt (by omega) ha
      have hih := ih (traverse.next a max_size) hlt hj (by omega)
      rw [List.map_cons]
      rw [show (traverse.next a max_size :: ringPath traverse.next max_size B fuel
          (traverse.next a max_size)).map (fun x => traverse.next x max_size)
        = ringPath traverse.next max_size B fuel (traverse.next a max_size)
          ++ [traverse.next B max_size] from hih]
      rfl

/-- C4 counterexample.  A reachable state at full capacity with a detached
cursor: the store holds capacity-many entries, `add` inserts a new entry, yet
the oldest reachable entry (identifier 2) stays reachable and two entries
(identifiers 4 and 5 — the forward history after the cursor) become
unreachable instead, contradicting the claim that exactly one entry, the
oldest, is evicted "also when the Cursor was detached". -/
theorem c4_eviction_counterexample :
    (let h := runOps natGetId 4
        [Op.add 0, Op.add 1, Op.add 2, Op.add 3, Op.add 4, Op.add 5, Op.backward, Op.backward];
     h.events.length = 4 ∧ (h.add natGetId 6).2 = some 6 ∧ h.head ≠ h.cursor ∧
     reachableIds natGetId h = [2, 3, 4, 5] ∧
     reachableIds natGetId (h.add natGetId 6).1 = [2, 3, 6] ∧
     (h.add natGetId 6).1.events.length = 4) := by decide

/-- C4 amended: when the whole ring is reachable (the store holds
Capacity entries and `history_start` sits just past the head) and the cursor
is attached (`cursor = head`), an `add` that actually inserts (not swallowed,
not a duplicate at the cursor) overwrites exactly the slot at
`history_start` — the oldest reachable entry — with the new Active entry,
moves cursor and head onto that slot (the ring-buffer cursor is never
decremented), advances `history_start` one slot, keeps the length at
Capacity, and rotates the reachable window one slot: the oldest slot drops
off its front and the overwritten slot re-enters at its back.  When the
cursor is detached no such eviction of the oldest entry happens (see the
counterexample). -/
theorem c4_eviction_amended {T : Type u} {ID : Type v} [DecidableEq ID] (getId : T → ID)
    {c : ℕ} {h : EventHistory T ID} (hr : Reachable getId c h) (item : T)
    (hfull : h.events.length = h.max_size)
    (hattached : h.cursor = h.head)
    (hwrap : h.history_start = traverse.next h.head h.max_size)
    (hni : getId item ∉ h.ignored_events)
    (hnd : (match h.events[h.cursor]? with
            | some (.active current) => decide (getId current = getId item)
            | _ => false) = false) :
    (h.add getId item).2 = some item ∧
    (h.add getId item).1.events = h.events.set h.history_start (EventStatus.active item) ∧
    (h.add getId item).1.cursor = h.history_start ∧
    (h.add getId item).1.head = h.history_start ∧
    (h.add getId item).1.history_start = traverse.next h.history_start h.max_size ∧
    (h.add getId item).1.static_history = false ∧
    (h.add getId item).1.events.length = h.max_size ∧
    ringIndices (h.add getId item).1 = (ringIndices h).tail ++ [h.history_start] := by
  have hinv := reachable_inv getId hr
  obtain ⟨hmax, hlen, hsm, hempty, hpos, hstat, hdyn, hsafe, hsound, hcomp, hknd, hvnd, hind⟩ := hinv
  have hlen0 : 0 < h.events.length := by omega
  obtain ⟨hcl, hhl, hcv⟩ := hpos hlen0
  have hslen : h.history_start < h.events.length := by omega
  have heq : h.add getId item
      = (⟨h.max_size, h.history_start, h.history_start,
          traverse.next h.history_start h.max_size, false,
          h.events.set h.history_start (EventStatus.active item),
          mapInsertIdx
            (match (h.events[h.history_start]?.bind EventStatus.get_event).map getId with
             | some pid => mapRemoveIdx h.event_idx_map pid h.history_start
             | none => h.event_idx_map)
            (getId item) h.history_start,
          h.ignored_events,
          { h.event_status_count with active := h.event_status_count.active + 1 }⟩,
         some item) := by
    unfold EventHistory.add
    rw [if_neg hni, if_neg (by rw [hnd]; simp)]
    rw [if_neg (fun hc => hc.1 hattached.symm)]
    simp only [EventHistory.next_idx]
    have hempF : h.events.isEmpty = false := events_isEmpty_false hlen0
    simp only [hempF, Bool.false_eq_true, if_false]
    have hins : traverse.next h.cursor h.max_size = h.history_start := by
      rw [hattached, hwrap]
    simp only [hins]
    rw [if_pos (⟨hfull, trivial⟩ : h.events.length = h.max_size ∧ True)]
    simp only []
    rw [if_neg (show ¬h.history_start = h.events.length by omega)]
    have hget : (h.events.set h.history_start (EventStatus.active item))[h.history_start]?
        = some (EventStatus.active item) := List.getElem?_set_self hslen
    rw [hget]
    rfl
  rw [heq]
  have hE1 : ¬ (h.events.set h.history_start (EventStatus.active item)).isEmpty = true := by
    intro hc
    rw [List.isEmpty_iff_length_eq_zero, List.length_set] at hc
    omega
  have hE2 : ¬ h.events.isEmpty = true := by
    intro hc
    rw [List.isEmpty_iff_length_eq_zero] at hc
    omega
  refine ⟨rfl, rfl, rfl, rfl, rfl, rfl, by simp [hfull], ?_⟩
  -- the reachable window rotates one slot
  by_cases hmax1 : h.max_size = 1
  · have hh0 : h.head = 0 := by omega
    have hs0 : h.history_start = 0 := by omega
    have hn0 : traverse.next 0 1 = 0 := by decide
    unfold ringIndices
    rw [if_neg hE1, if_neg hE2]
    simp only [hs0, hh0, hmax1, hn0]
    simp
  · have hmax2 : 1 < h.max_size := by omega
    have hshne : h.history_start ≠ h.head := by
      rw [hwrap]
      unfold traverse.next
      split <;> omega
    have hsh'ne : traverse.next h.history_start h.max_size ≠ h.history_start := by
      unfold traverse.next
      split <;> omega
    unfold ringIndices
    rw [if_neg hE1, if_neg hE2]
    simp only []
    rw [if_neg hsh'ne, if_neg hshne]
    have hR1 : ringPath traverse.next h.max_size h.history_start h.max_size
        (traverse.next h.history_start h.max_size)
        = (ringPath traverse.next h.max_size h.head h.max_size h.history_start).map
            (fun x => traverse.next x h.max_size) := by
      rw [hwrap]
      exact ringPath_map_next (fun x hx => traverse.next_lt (by omega) hx)
        (fun x y hx hy hc => traverse.next_inj hx hy hc)
        h.head (by omega) h.max_size (traverse.next h.head h.max_size)
        (traverse.next_lt (by omega) (show h.head < h.max_size by omega))
    have hR2 : (h.history_start ::
        ringPath traverse.next h.max_size h.head h.max_size h.history_start).map
          (fun x => traverse.next x h.max_size)
        = ringPath traverse.next h.max_size h.head h.max_size h.history_start
            ++ [traverse.next h.head h.max_size] :=
      ringPath_chain_next hmax2 h.head (by omega) h.max_size h.history_start (by omega)
        hshne (le_of_lt (ringDist_lt (by omega) (by omega)))
    rw [List.tail_cons]
    rw [show (traverse.next h.history_start h.max_size ::
        ringPath traverse.next h.max_size h.history_start h.max_size
          (traverse.next h.history_start h.max_size))
      = (h.history_start ::
          ringPath traverse.next h.max_size h.head h.max_size h.history_start).map
            (fun x => traverse.next x h.max_size) from by
        rw [List.map_cons, hR1]]
    rw [hR2, ← hwrap]

/-- Witness for the amended C4 at capacity 3 after four adds (full ring,
attached cursor), adding a fifth distinct item. -/
theorem c4_eviction_amended_witness :
    (let h := runOps natGetId 3 [Op.add 0, Op.add 1, Op.add 2, Op.add 3];
     (h.add natGetId 4).2 = some 4 ∧
     (h.add natGetId 4).1.events = h.events.set h.history_start (EventStatus.active 4) ∧
     (h.add natGetId 4).1.cursor = h.history_start ∧
     (h.add natGetId 4).1.head = h.history_start ∧
     (h.add natGetId 4).1.history_start = traverse.next h.history_start h.max_size ∧
     (h.add natGetId 4).1.static_history = false ∧
     (h.add natGetId 4).1.events.length = h.max_size ∧
     ringIndices (h.add natGetId 4).1 = (ringIndices h).tail ++ [h.history_start]) :=
  c4_eviction_amended natGetId
    ⟨by decide, [Op.add 0, Op.add 1, Op.add 2, Op.add 3], rfl⟩ 4
    (by decide) (by decide) (by decide) (by decide) (by decide)

/-- C6 counterexample: when `backward` finds nothing the cursor stays put, yet
the following `forward` can still move it, so the round trip does not return
the cursor to its prior position on every state.  Concretely: capacity 5,
add 1, add 2, backward (cursor now on entry 1 at index 0); another backward
fails, but the forward after it advances the cursor to index 1. -/
theorem c6_roundtrip_counterexample :
    (let h := runOps natGetId 5 [Op.add 1, Op.add 2, Op.backward];
     (h.backward natGetId).2 = none ∧
     ((h.backward natGetId).1.forward natGetId).1.cursor ≠ h.cursor) := by decide

/-- C6 amended: if `backward` succeeds (returns an item) and the original
cursor slot is the first entry the forward scan accepts from the landing
point, then the `forward` that follows restores the cursor to its prior
position. -/
theorem c6_roundtrip_amended {T : Type u} {ID : Type v} [DecidableEq ID] (getId : T → ID)
    {c : ℕ} {h h1 : EventHistory T ID} {t : T} (hr : Reachable getId c h)
    (hb : h.backward getId = (h1, some t))
    (hfirst : forwardSpecIdx getId h1 = some h.cursor) :
    (h1.forward getId).1.cursor = h.cursor := by
  have hinv := reachable_inv getId hr
  have hinv1 : HistInv getId h1 := by
    have hi := inv_backward getId hinv
    rw [hb] at hi
    exact hi
  rw [forward_eq_spec getId hinv1]
  unfold forwardSpecFn
  rw [hfirst]
  cases hbind : h1.events[h.cursor]?.bind EventStatus.get_event with
  | none => simp only [hbind]
  | some t2 => simp only [hbind]

/-- Witness for the amended C6: capacity 5, add 1, add 2; backward lands on
entry 1, and the forward after it restores the cursor to index 1. -/
theorem c6_roundtrip_amended_witness :
    (((runOps natGetId 5 [Op.add 1, Op.add 2]).backward natGetId).1.forward natGetId).1.cursor
      = (runOps natGetId 5 [Op.add 1, Op.add 2]).cursor :=
  c6_roundtrip_amended natGetId ⟨by decide, [Op.add 1, Op.add 2], rfl⟩
    (show (runOps natGetId 5 [Op.add 1, Op.add 2]).backward natGetId
        = (((runOps natGetId 5 [Op.add 1, Op.add 2]).backward natGetId).1, some 1)
      from by decide)
    (by decide)

lemma find?_congr_mem {α : Type u} {p q : α → Bool} :
    ∀ l : List α, (∀ x ∈ l, p x = q x) → l.find? p = l.find? q := by
  intro l
  induction l with
  | nil => intro _; rfl
  | cons a as ih =>
    intro hpq
    have ha := hpq a (List.mem_cons_self a as)
    rw [List.find?_cons, List.find?_cons, ha]
    cases hqa : q a
    · exact ih (fun x hx => hpq x (List.mem_cons_of_mem a hx))
    · rfl

lemma nearestEarlierActive_cursor_irrel (mx cu cv hd hs : ℕ) (st : Bool)
    (E : List (EventStatus T)) (m : List (ID × List ℕ)) (g : List ID)
    (cnt : EventStatusCount) (start : ℕ) (key : ID) :
    nearestEarlierActive getId ⟨mx, cu, hd, hs, st, E, m, g, cnt⟩ start key
      = nearestEarlierActive getId ⟨mx, cv, hd, hs, st, E, m, g, cnt⟩ start key := by
  unfold nearestEarlierActive
  rfl

lemma in_valid_range_mk (mx cu hd hs : ℕ) (st : Bool) (E : List (EventStatus T))
    (m : List (ID × List ℕ)) (g : List ID) (cnt : EventStatusCount) (i : ℕ) :
    EventHistory.in_valid_range ⟨mx, cu, hd, hs, st, E, m, g, cnt⟩ i
      = if E.isEmpty then false
        else if hs ≤ hd then decide (hs ≤ i ∧ i ≤ hd)
        else decide (hs ≤ i ∨ i ≤ hd) := rfl

lemma prev_active_eq_nearest (mx cu hd hs : ℕ) (st : Bool) (E : List (EventStatus T))
    (m : List (ID × List ℕ)) (g : List ID) (cnt : EventStatusCount) (key : ID)
    (hmax : 0 < mx) (hlen : E.length ≤ mx) (hsm : hs < mx)
    (hcl : cu < E.length) (hhl : hd < E.length) (hsl : hs < E.length)
    (hcv : EventHistory.in_valid_range ⟨mx, cu, hd, hs, st, E, m, g, cnt⟩ cu = true)
    (hstat : st = true → hs = 0)
    (hdyn : st = false → E.length = mx)
    (hinit : (E[cu]?.bind EventStatus.get_event).map getId = some key ∨
      ((E[cu]?.bind EventStatus.get_event).map getId = none ∧
       ∀ (i : ℕ) (t : T), E[i]? = some (EventStatus.active t) → getId t ≠ key)) :
    EventHistory.prev_active_idx getId ⟨mx, cu, hd, hs, st, E, m, g, cnt⟩ cu
      = nearestEarlierActive getId ⟨mx, cu, hd, hs, st, E, m, g, cnt⟩ cu key := by
  have hlen0 : 0 < E.length := by omega
  by_cases hch : cu = hs
  · unfold EventHistory.prev_active_idx nearestEarlierActive
    simp only []
    rw [if_pos hch, if_pos hch]
  · have hmax2 : 2 ≤ mx := by omega
    have hEemp : E.isEmpty = false := by
      cases hE : E with
      | nil => rw [hE] at hlen0; simp at hlen0
      | cons a as => rfl
    have hkey : EventHistory.prev_active_idx getId ⟨mx, cu, hd, hs, st, E, m, g, cnt⟩ cu
        = (ringPath traverse.prev mx hs mx cu).find?
            (navTarget getId ⟨mx, cu, hd, hs, st, E, m, g, cnt⟩
              ((E[cu]?.bind EventStatus.get_event).map getId)) := by
      unfold EventHistory.prev_active_idx EventHistory.find_next EventHistory.prev_idx
        EventHistory.get_idx_id
      simp only []
      rw [if_neg hch]
      exact findNextGo_eq_ringPath getId _ traverse.prev hs hsl
        (by
          rw [in_valid_range_mk mx cu hd hs st E m g cnt hs, hEemp]
          simp only [Bool.false_eq_true, if_false]
          split <;> simp only [decide_eq_true_eq] <;> omega)
        (show traverse.prev hs mx ≠ hs by unfold traverse.prev; split <;> omega)
        (fun a ha hc => traverse.prev_inj ha (show hs < mx by omega) hc)
        (valid_prev_step hlen hhl hsm hstat hdyn)
        mx cu (show cu < mx by omega) hcv hch
    rcases hinit with hsome | ⟨hnone, hnoact⟩
    · rw [hkey, hsome]
      unfold nearestEarlierActive
      simp only []
      rw [if_neg hch]
      apply find?_congr_mem
      intro i _
      unfold navTarget
      simp only []
      cases hev : E[i]? with
      | none => rfl
      | some ev =>
        cases ev with
        | active u =>
          simp only []
          exact decide_eq_decide.mpr
            ⟨fun hne hgk => hne (by rw [hgk]), fun hne hsq => hne (Option.some.inj hsq).symm⟩
        | inactive u => rfl
        | deleted => rfl
    · rw [hkey, hnone]
      unfold nearestEarlierActive
      simp only []
      rw [if_neg hch]
      apply find?_congr_mem
      intro i _
      unfold navTarget
      simp only []
      cases hev : E[i]? with
      | none => rfl
      | some ev =>
        cases ev with
        | active u =>
          simp only []
          have hne := hnoact i u hev
          simp [hne]
        | inactive u => rfl
        | deleted => rfl

lemma deactivate_cursor_spec {h : EventHistory T ID} (hinv : HistInv getId h) (key : ID) :
    (h.deactivate getId key).cursor =
      (if h.cursor ∈ mapIdxs h.event_idx_map key then
        (nearestEarlierActive getId (h.deactivate getId key) h.cursor key).getD h.cursor
      else h.cursor) := by
  obtain ⟨hmax, hlen, hsm, hempty, hpos, hstat, hdyn, hsafe, hsound, hcomp, hknd, hvnd, hind⟩ := hinv
  cases hf : mapFind? h.event_idx_map key with
  | none =>
    have hni : ¬ h.cursor ∈ mapIdxs h.event_idx_map key := by
      rw [mapIdxs, hf]
      simp
    have hD : h.deactivate getId key = h := by
      unfold EventHistory.deactivate
      rw [hf]
    rw [hD, if_neg hni]
  | some idxs =>
    have hidxs : mapIdxs h.event_idx_map key = idxs := by
      rw [mapIdxs, hf]
      rfl
    by_cases hc : h.cursor ∈ idxs
    case neg =>
      have hD : (h.deactivate getId key).cursor = h.cursor := by
        unfold EventHistory.deactivate
        rw [hf]
        simp only []
        rw [if_neg hc]
      rw [hD, if_neg (by rw [hidxs]; exact hc)]
    case pos =>
      have hcm : h.cursor ∈ mapIdxs h.event_idx_map key := by
        rw [hidxs]
        exact hc
      obtain ⟨t, hev, hid⟩ := ((mapSound_keyed getId hknd).mp hsound) key h.cursor hcm
      have hcl : h.cursor < h.events.length := by
        rcases hev with hev | hev <;> exact (List.getElem?_eq_some.mp hev).1
      have hlen0 : 0 < h.events.length := by omega
      obtain ⟨hcl', hhl, hcv⟩ := hpos hlen0
      have hsl : h.history_start < h.events.length := by
        have hcase : h.history_start = 0 ∨ h.events.length = h.max_size := by
          cases hstt : h.static_history
          · exact Or.inr (hdyn hstt)
          · exact Or.inl (hstat hstt)
        omega
      have hlenE : (deactivateFold idxs (h.events, h.event_status_count)).1.length
          = h.events.length := deactivateFold_length idxs h.events h.event_status_count
      have hmev : (deactivateFold idxs (h.events, h.event_status_count)).1[h.cursor]?
          = some (EventStatus.inactive t) := by
        rw [deactivateFold_getElem? idxs h.events h.event_status_count h.cursor, if_pos hc]
        rcases hev with hev | hev <;> rw [hev]
      have hchar : h.deactivate getId key
          = (match EventHistory.prev_active_idx getId
                ⟨h.max_size, h.cursor, h.head, h.history_start, h.static_history,
                 (deactivateFold idxs (h.events, h.event_status_count)).1,
                 h.event_idx_map, h.ignored_events,
                 (deactivateFold idxs (h.events, h.event_status_count)).2⟩ h.cursor with
             | some p =>
               ⟨h.max_size, p, h.head, h.history_start, h.static_history,
                (deactivateFold idxs (h.events, h.event_status_count)).1,
                h.event_idx_map, h.ignored_events,
                (deactivateFold idxs (h.events, h.event_status_count)).2⟩
             | none =>
               ⟨h.max_size, h.cursor, h.head, h.history_start, h.static_history,
                (deactivateFold idxs (h.events, h.event_status_count)).1,
                h.event_idx_map, h.ignored_events,
                (deactivateFold idxs (h.events, h.event_status_count)).2⟩) := by
        unfold EventHistory.deactivate
        rw [hf]
        simp only []
        rw [if_pos hc]
      have hscan : EventHistory.prev_active_idx getId
          ⟨h.max_size, h.cursor, h.head, h.history_start, h.static_history,
           (deactivateFold idxs (h.events, h.event_status_count)).1,
           h.event_idx_map, h.ignored_events,
           (deactivateFold idxs (h.events, h.event_status_count)).2⟩ h.cursor
          = nearestEarlierActive getId
              ⟨h.max_size, h.cursor, h.head, h.history_start, h.static_history,
               (deactivateFold idxs (h.events, h.event_status_count)).1,
               h.event_idx_map, h.ignored_events,
               (deactivateFold idxs (h.events, h.event_status_count)).2⟩ h.cursor key := by
        apply prev_active_eq_nearest getId h.max_size h.cursor h.head h.history_start
          h.static_history _ h.event_idx_map h.ignored_events _ key hmax
          (by rw [hlenE]; exact hlen) hsm (by rw [hlenE]; exact hcl)
          (by rw [hlenE]; exact hhl) (by rw [hlenE]; exact hsl)
          ((in_valid_range_update h h.cursor _ _ _ _ hlenE h.cursor).trans hcv)
          hstat (fun hstf => hlenE.trans (hdyn hstf))
        refine Or.inl ?_
        rw [hmev]
        simp only [Option.bind, EventStatus.get_event, Option.map]
        rw [hid]
      rw [hchar, if_pos hcm]
      cases hpa : EventHistory.prev_active_idx getId
          ⟨h.max_size, h.cursor, h.head, h.history_start, h.static_history,
           (deactivateFold idxs (h.events, h.event_status_count)).1,
           h.event_idx_map, h.ignored_events,
           (deactivateFold idxs (h.events, h.event_status_count)).2⟩ h.cursor with
      | none =>
        have hnea := hpa ▸ hscan
        simp only [hpa]
        rw [← hnea]
        rfl
      | some p =>
        have hnea := hpa ▸ hscan
        simp only [hpa]
        rw [nearestEarlierActive_cursor_irrel getId h.max_size p h.cursor h.head
          h.history_start h.static_history
          (deactivateFold idxs (h.events, h.event_status_count)).1
          h.event_idx_map h.ignored_events
          (deactivateFold idxs (h.events, h.event_status_count)).2 h.cursor key]
        rw [← hnea]
        rfl

lemma remove_cursor_spec {h : EventHistory T ID} (hinv : HistInv getId h) (key : ID) :
    (h.remove getId key).cursor =
      (if h.cursor ∈ mapIdxs h.event_idx_map key then
        (nearestEarlierActive getId (h.remove getId key) h.cursor key).getD h.cursor
      else h.cursor) := by
  obtain ⟨hmax, hlen, hsm, hempty, hpos, hstat, hdyn, hsafe, hsound, hcomp, hknd, hvnd, hind⟩ := hinv
  rcases hmk : mapRemoveKey h.event_idx_map key with ⟨o, m2⟩
  have hfst : o = mapFind? h.event_idx_map key := by
    have hh := (show (mapRemoveKey h.event_idx_map key).1 = mapFind? h.event_idx_map key from mapRemoveKey_fst)
    rw [hmk] at hh
    exact hh
  cases o with
  | none =>
    have hni : ¬ h.cursor ∈ mapIdxs h.event_idx_map key := by
      rw [mapIdxs, ← hfst]
      simp
    have hD : h.remove getId key = h := by
      unfold EventHistory.remove
      rw [hmk]
    rw [hD, if_neg hni]
  | some idxs =>
    have hidxs : mapIdxs h.event_idx_map key = idxs := by
      rw [mapIdxs, ← hfst]
      rfl
    by_cases hc : h.cursor ∈ idxs
    case neg =>
      have hD : (h.remove getId key).cursor = h.cursor := by
        unfold EventHistory.remove
        rw [hmk]
        simp only []
        rw [if_neg hc]
      rw [hD, if_neg (by rw [hidxs]; exact hc)]
    case pos =>
      have hcm : h.cursor ∈ mapIdxs h.event_idx_map key := by
        rw [hidxs]
        exact hc
      obtain ⟨t, hev, hid⟩ := ((mapSound_keyed getId hknd).mp hsound) key h.cursor hcm
      have hcl : h.cursor < h.events.length := by
        rcases hev with hev | hev <;> exact (List.getElem?_eq_some.mp hev).1
      have hlen0 : 0 < h.events.length := by omega
      obtain ⟨hcl', hhl, hcv⟩ := hpos hlen0
      have hsl : h.history_start < h.events.length := by
        have hcase : h.history_start = 0 ∨ h.events.length = h.max_size := by
          cases hstt : h.static_history
          · exact Or.inr (hdyn hstt)
          · exact Or.inl (hstat hstt)
        omega
      have hlenE : (markDeletedFold idxs (h.events, h.event_status_count)).1.length
          = h.events.length := markDeletedFold_length idxs h.events h.event_status_count
      have hmev : (markDeletedFold idxs (h.events, h.event_status_count)).1[h.cursor]?
          = some EventStatus.deleted := by
        rw [markDeletedFold_getElem? idxs h.events h.event_status_count h.cursor, if_pos hc]
        rcases hev with hev | hev <;> rw [hev] <;> rfl
      have hnoact : ∀ (i : ℕ) (u : T),
          (markDeletedFold idxs (h.events, h.event_status_count)).1[i]?
            = some (EventStatus.active u) → getId u ≠ key := by
        intro i u hiu hguk
        rw [markDeletedFold_getElem? idxs h.events h.event_status_count i] at hiu
        by_cases hii : i ∈ idxs
        · rw [if_pos hii] at hiu
          cases hE : h.events[i]? <;> rw [hE] at hiu <;> simp at hiu
        · rw [if_neg hii] at hiu
          have hmem := ((mapComplete_iff getId).mp hcomp) i u (Or.inl hiu)
          rw [hguk, hidxs] at hmem
          exact hii hmem
      have hchar : h.remove getId key
          = (match EventHistory.prev_active_idx getId
                ⟨h.max_size, h.cursor, h.head, h.history_start, h.static_history,
                 (markDeletedFold idxs (h.events, h.event_status_count)).1,
                 m2, h.ignored_events,
                 (markDeletedFold idxs (h.events, h.event_status_count)).2⟩ h.cursor with
             | some p =>
               ⟨h.max_size, p, h.head, h.history_start, h.static_history,
                (markDeletedFold idxs (h.events, h.event_status_count)).1,
                m2, h.ignored_events,
                (markDeletedFold idxs (h.events, h.event_status_count)).2⟩
             | none =>
               ⟨h.max_size, h.cursor, h.head, h.history_start, h.static_history,
                (markDeletedFold idxs (h.events, h.event_status_count)).1,
                m2, h.ignored_events,
                (markDeletedFold idxs (h.events, h.event_status_count)).2⟩) := by
        unfold EventHistory.remove
        rw [hmk]
        simp only []
        rw [if_pos hc]
      have hscan : EventHistory.prev_active_idx getId
          ⟨h.max_size, h.cursor, h.head, h.history_start, h.static_history,
           (markDeletedFold idxs (h.events, h.event_status_count)).1,
           m2, h.ignored_events,
           (markDeletedFold idxs (h.events, h.event_status_count)).2⟩ h.cursor
          = nearestEarlierActive getId
              ⟨h.max_size, h.cursor, h.head, h.history_start, h.static_history,
               (markDeletedFold idxs (h.events, h.event_status_count)).1,
               m2, h.ignored_events,
               (markDeletedFold idxs (h.events, h.event_status_count)).2⟩ h.cursor key := by
        apply prev_active_eq_nearest getId h.max_size h.cursor h.head h.history_start
          h.static_history _ m2 h.ignored_events _ key hmax
          (by rw [hlenE]; exact hlen) hsm (by rw [hlenE]; exact hcl)
          (by rw [hlenE]; exact hhl) (by rw [hlenE]; exact hsl)
          ((in_valid_range_update h h.cursor _ _ _ _ hlenE h.cursor).trans hcv)
          hstat (fun hstf => hlenE.trans (hdyn hstf))
        refine Or.inr ⟨?_, hnoact⟩
        rw [hmev]
        rfl
      rw [hchar, if_pos hcm]
      cases hpa : EventHistory.prev_active_idx getId
          ⟨h.max_size, h.cursor, h.head, h.history_start, h.static_history,
           (markDeletedFold idxs (h.events, h.event_status_count)).1,
           m2, h.ignored_events,
           (markDeletedFold idxs (h.events, h.event_status_count)).2⟩ h.cursor with
      | none =>
        have hnea := hpa ▸ hscan
        simp only [hpa]
        rw [← hnea]
        rfl
      | some p =>
        have hnea := hpa ▸ hscan
        simp only [hpa]
        rw [nearestEarlierActive_cursor_irrel getId h.max_size p h.cursor h.head
          h.history_start h.static_history
          (markDeletedFold idxs (h.events, h.event_status_count)).1
          m2 h.ignored_events
          (markDeletedFold idxs (h.events, h.event_status_count)).2 h.cursor key]
        rw [← hnea]
        rfl

/-- C5 counterexample: capacity 5, add 1, add 2, backward (cursor on the
Active entry for 1 at index 0); `deactivate 1` turns that very entry Inactive,
so the spec's realignment rules apply: rule (a) finds nothing and rule (b)
names index 1 (the Active entry for 2).  The code, however, only ever scans
backward (rule (a)) and leaves the cursor at index 0 when that scan fails —
rules (b), (c) and (d) are never consulted. -/
theorem c5_realign_counterexample :
    (let h := runOps natGetId 5 [Op.add 1, Op.add 2, Op.backward];
     h.cursor = 0 ∧
     h.events[0]? = some (EventStatus.active 1) ∧
     (h.deactivate natGetId 1).events[0]? = some (EventStatus.inactive 1) ∧
     (h.deactivate natGetId 1).cursor = 0 ∧
     nearestEarlierActive natGetId (h.deactivate natGetId 1) 0 1 = none ∧
     nearestLaterActive natGetId (h.deactivate natGetId 1) 0 1 = some 1 ∧
     specRealignCursor natGetId (h.deactivate natGetId 1) 0 1 = 1) := by decide

/-- C5 amended: `activate` never realigns the cursor; `remove(id)` and
`deactivate(id)` realign it exactly when the cursor index is among the
indices recorded for `id`, and then only by rule (a) — the nearest earlier
Active entry with a different identifier, computed on the already-marked
store; when no such entry exists the cursor simply stays put (the spec's
rules (b), (c) and (d) are not implemented). -/
theorem c5_realign_amended {T : Type u} {ID : Type v} [DecidableEq ID] (getId : T → ID)
    {c : ℕ} {h : EventHistory T ID} (hr : Reachable getId c h) (key : ID) :
    (h.activate key).cursor = h.cursor ∧
    (h.deactivate getId key).cursor =
      (if h.cursor ∈ mapIdxs h.event_idx_map key then
        (nearestEarlierActive getId (h.deactivate getId key) h.cursor key).getD h.cursor
      else h.cursor) ∧
    (h.remove getId key).cursor =
      (if h.cursor ∈ mapIdxs h.event_idx_map key then
        (nearestEarlierActive getId (h.remove getId key) h.cursor key).getD h.cursor
      else h.cursor) := by
  have hinv := reachable_inv getId hr
  refine ⟨?_, deactivate_cursor_spec getId hinv key, remove_cursor_spec getId hinv key⟩
  unfold EventHistory.activate
  cases mapFind? h.event_idx_map key <;> rfl

/-- Witness for the amended C5 at the counterexample state: the cursor is on
the sole entry for identifier 1, rule (a) fails, and both `remove 1` and
`deactivate 1` leave the cursor at index 0 while `activate 1` never moves it. -/
theorem c5_realign_amended_witness :
    (let h := runOps natGetId 5 [Op.add 1, Op.add 2, Op.backward];
     (h.activate 1).cursor = h.cursor ∧
     (h.deactivate natGetId 1).cursor =
       (if h.cursor ∈ mapIdxs h.event_idx_map 1 then
         (nearestEarlierActive natGetId (h.deactivate natGetId 1) h.cursor 1).getD h.cursor
       else h.cursor) ∧
     (h.remove natGetId 1).cursor =
       (if h.cursor ∈ mapIdxs h.event_idx_map 1 then
         (nearestEarlierActive natGetId (h.remove natGetId 1) h.cursor 1).getD h.cursor
       else h.cursor)) :=
  c5_realign_amended natGetId ⟨by decide, [Op.add 1, Op.add 2, Op.backward], rfl⟩ 1
